import Mathlib

/-! Rental-state derivation and view synchronisation of `aluguel-main` (frontend).

A shallow embedding of the parts of the React frontend that decide the
derived contract badges (`pages/Alugueis.js`), the outstanding balance and the
update payloads of the contract detail view (`pages/DetalhesAluguel.js`) and
the refresh counter of `context/AuthContext.js`.

Conventions of the embedding.

* An instant is the time value of a JavaScript `Date`: an integer number of
  milliseconds since the epoch.  `new Date(s)` of a stored date string is
  modelled by its time value, `none` standing for `Invalid Date` (time value
  `NaN`), for which every comparison is `false`.  The clock `new Date()` is
  always a valid instant and is passed explicitly.
* Time values are integers of magnitude at most `8.64e15`, so they are exact
  as IEEE doubles; the predicates below only test the sign of a difference
  and whether `Math.ceil` of a quotient lies in `[0, 3]`, which correctly
  rounded double arithmetic decides exactly as integer arithmetic does.
* Monetary amounts are JSON numbers, hence finite IEEE doubles; a double is
  modelled by the rational number it denotes.  The subtraction of two doubles
  is the exact difference rounded to the nearest double, ties to even
  (`roundDouble`), and overflows to an infinity from `2^1024` on.
-/

namespace AluguelMain

/-! ## Data model -/

/-- A rental contract as the list and detail views receive it from the API
(the fields read by the embedded code). -/
structure Aluguel where
  id : String
  vestido_id : String
  status : String
  /-- Time value of `new Date(aluguel.data_devolucao)`; `none` is `Invalid Date`. -/
  data_devolucao : Option Int
  valor_aluguel : ℚ
  /-- Amount paid so far; `none` when the field is missing or `null`. -/
  valor_pago : Option ℚ
  avarias : Option String
  observacoes : Option String

/-! ## `pages/Alugueis.js`: derived badges -/

/-- `Math.ceil(x / d)` for an integer numerator `x` and a positive integer
divisor `d` (integer division rounds towards minus infinity for `d > 0`). -/
def mathCeilDiv (x d : Int) : Int := -((-x) / d)

/-- `isAtrasado(dataDevolucao)`: `new Date(dataDevolucao) < new Date()`, the
clock reading being `now`. -/
def isAtrasado (now : Int) (dataDevolucao : Option Int) : Bool :=
  match dataDevolucao with
  | none => false
  | some devolucao => decide (devolucao < now)

/-- `isProximo(dataDevolucao)`: `diffDias >= 0 && diffDias <= 3` with
`diffDias = Math.ceil((devolucao - hoje) / (1000 * 60 * 60 * 24))`, the clock
reading being `hoje`. -/
def isProximo (hoje : Int) (dataDevolucao : Option Int) : Bool :=
  match dataDevolucao with
  | none => false
  | some devolucao =>
    let diffDias := mathCeilDiv (devolucao - hoje) (1000 * 60 * 60 * 24)
    decide (diffDias ≥ 0) && decide (diffDias ≤ 3)

/-- The late badge of a rental card:
`aluguel.status === 'ativo' && isAtrasado(aluguel.data_devolucao)`, the clock
being read at `t0`. -/
def badgeAtrasado (t0 : Int) (aluguel : Aluguel) : Bool :=
  aluguel.status == "ativo" && isAtrasado t0 aluguel.data_devolucao

/-- The due-soon badge of a rental card:
`aluguel.status === 'ativo' && isProximo(aluguel.data_devolucao) &&
!isAtrasado(aluguel.data_devolucao)`; the clock is read at `t1` inside
`isProximo` and again at `t2` inside `isAtrasado`. -/
def badgeProximo (t1 t2 : Int) (aluguel : Aluguel) : Bool :=
  aluguel.status == "ativo" && isProximo t1 aluguel.data_devolucao
    && !isAtrasado t2 aluguel.data_devolucao

/-! ## `pages/DetalhesAluguel.js`: balance and update payloads -/

/-- `v || 0` for an optional number `v`: a missing (`undefined` or `null`)
value and the number zero are falsy and give `0`, every other number is kept. -/
def orZero (v : Option ℚ) : ℚ :=
  match v with
  | none => 0
  | some x => if x = 0 then 0 else x

/-- `Number.prototype.toFixed(f)` on a finite number `x` (ECMAScript
`Number.prototype.toFixed`): the sign is split off, `n` is the integer nearest
to `x * 10^f` (the larger one on a tie), its decimal digits are left-padded
with zeros to `f + 1` characters and a point is put before the last `f`.
For `x ≥ 10^21` the result is `ToString(x)`, a library function taken as the
parameter `numberToString`. -/
def toFixed (numberToString : ℚ → String) (x : ℚ) (f : Nat) : String :=
  let s : List Char := if x < 0 then ['-'] else []
  let x : ℚ := if x < 0 then -x else x
  if (10 : ℚ) ^ 21 ≤ x then String.mk (s ++ (numberToString x).data)
  else
    let n : Nat := (Int.floor (x * (10 : ℚ) ^ f + 1 / 2)).toNat
    let m : List Char := if n = 0 then ['0'] else Nat.toDigits 10 n
    let m : List Char :=
      if f ≠ 0 then
        let m := if m.length ≤ f then List.replicate (f + 1 - m.length) '0' ++ m else m
        let k := m.length
        m.take (k - f) ++ ['.'] ++ m.drop (k - f)
      else m
    String.mk (s ++ m)

/-- The integer nearest to `y`, the even one when `y` lies halfway between two
integers. -/
def roundHalfEven (y : ℚ) : Int :=
  let f := Int.floor y
  let r := y - f
  if r < 1 / 2 then f
  else if 1 / 2 < r then f + 1
  else if f % 2 = 0 then f else f + 1

/-- Rounding of a real number to IEEE binary64, to nearest with ties to even,
the exponent being unbounded above: the spacing of the doubles around `x` is
`2^(e - 52)` with `e = max(floor(log2 |x|), -1022)` (the subnormal doubles are
spaced `2^(-1074)`), and `x` goes to the nearest multiple of the spacing. -/
def roundDouble (x : ℚ) : ℚ :=
  if x = 0 then 0
  else
    let e : Int := max (Int.log 2 |x|) (-1022)
    let quantum : ℚ := (2 : ℚ) ^ (e - 52)
    (if x < 0 then -1 else 1) * (roundHalfEven (|x| / quantum) : ℚ) * quantum

/-- Whether a rational number is a finite double: rounding leaves it unchanged
and its magnitude is below `2^1024`. -/
def isDouble (x : ℚ) : Bool :=
  decide (roundDouble x = x) && decide (|x| < (2 : ℚ) ^ 1024)

/-- The JavaScript subtraction `a - b` of two finite doubles: the rounded exact
difference; `none` when the result is not finite (it is `Infinity` for a
positive difference and `-Infinity` for a negative one). -/
def doubleSub (a b : ℚ) : Option ℚ :=
  let r := roundDouble (a - b)
  if (2 : ℚ) ^ 1024 ≤ |r| then none else some r

/-- The number under "Saldo Devedor":
`aluguel?.valor_aluguel - (aluguel?.valor_pago || 0)`, when it is finite.  The
result is `none` when it is not a finite number: the state `aluguel` is `null`
until a contract is loaded, and then the difference is `NaN`; for a loaded
contract the subtraction may overflow to an infinity. -/
def saldoDevedor (aluguel : Option Aluguel) : Option ℚ :=
  match aluguel with
  | none => none
  | some a => doubleSub a.valor_aluguel (orZero a.valor_pago)

/-- The text after "R$" under "Saldo Devedor":
`(aluguel?.valor_aluguel - (aluguel?.valor_pago || 0))?.toFixed(2) || '0.00'`.
`toFixed` of a number that is not finite is its `ToString`: "NaN", "Infinity"
or "-Infinity". -/
def saldoDevedorTexto (numberToString : ℚ → String) (aluguel : Option Aluguel) : String :=
  match aluguel with
  | none => "NaN"
  | some a =>
    match saldoDevedor (some a) with
    | none => if a.valor_aluguel - orZero a.valor_pago < 0 then "-Infinity" else "Infinity"
    | some x =>
      let t := toFixed numberToString x 2
      if t = "" then "0.00" else t

/-- The colour class of the balance: `saldo > 0 ? 'text-red-600' : 'text-blue-600'`
(a comparison with `NaN` is false, `Infinity > 0` is true). -/
def saldoDevedorClasse (aluguel : Option Aluguel) : String :=
  match aluguel with
  | none => "text-blue-600"
  | some a =>
    match saldoDevedor (some a) with
    | none =>
      if a.valor_aluguel - orZero a.valor_pago < 0 then "text-blue-600" else "text-red-600"
    | some x => if 0 < x then "text-red-600" else "text-blue-600"

/-- Body of a `PUT /alugueis/:id` request: a JSON object in which each key is
either present (`some`) or absent (`none`). -/
structure AluguelUpdate where
  status : Option String
  avarias : Option String
  valor_pago : Option ℚ
  observacoes : Option String
deriving DecidableEq

/-- Local state of the `DetalhesAluguel` component (the `useState` cells the
handlers read). -/
structure DetalhesState where
  aluguel : Option Aluguel
  avarias : String
  status : String
  valorPago : ℚ

/-- State written by `fetchAluguel` from the response `data`:
`setAluguel(data)`, `setAvarias(data.avarias || '')`, `setStatus(data.status)`,
`setValorPago(data.valor_pago || 0)`. -/
def fetchAluguel (data : Aluguel) : DetalhesState :=
  { aluguel := some data
    avarias := data.avarias.getD ""
    status := data.status
    valorPago := orZero data.valor_pago }

/-- Request body sent by `handleUpdate`: `{ status: status, avarias: avarias }`. -/
def handleUpdate (s : DetalhesState) : AluguelUpdate :=
  { status := some s.status, avarias := some s.avarias, valor_pago := none, observacoes := none }

/-- Request body sent by `handleQuitarPagamento`:
`{ valor_pago: aluguel.valor_aluguel }`.  With `aluguel` still `null` the
property read throws inside the `try` and no request is sent (`none`). -/
def handleQuitarPagamento (s : DetalhesState) : Option AluguelUpdate :=
  match s.aluguel with
  | none => none
  | some a =>
    some { status := none, avarias := none, valor_pago := some a.valor_aluguel,
           observacoes := none }

/-- Modelled from the spec: the contract-record part of `updateContract` of the
Reconciliation Service (the backend is not among the source files).  It
"accepts a sparse set of mutable fields: status, damage_notes, amount_paid,
remarks"; a field that is present replaces the stored one, an absent field
leaves it unchanged. -/
def updateContract (stored : Aluguel) (fields : AluguelUpdate) : Aluguel :=
  { stored with
    status := fields.status.getD stored.status
    avarias := match fields.avarias with
      | some v => some v
      | none => stored.avarias
    valor_pago := match fields.valor_pago with
      | some v => some v
      | none => stored.valor_pago
    observacoes := match fields.observacoes with
      | some v => some v
      | none => stored.observacoes }

/-! ## `context/AuthContext.js`: the refresh counter

`AuthProvider` is embedded as a state machine.  Its state holds the `useState`
cells `token` and `refreshVersion`, every `WebSocket` the effect has created
(with its ready state), the pending `setTimeout` callbacks (by due time) and a
clock.  The library behaviour assumed is the documented one: an effect with
dependencies `[token]` runs its cleanup and then its body when `token` changes,
and the cleanup on unmount; a state setter called with the current value, or
after unmount, changes nothing; `ws.close()` starts the closing handshake and
the `close` event, hence `ws.onclose`, fires afterwards, exactly as after a
closure by the peer; messages are dispatched only to an open socket; a timeout
callback runs no earlier than its delay.  The counter is a JavaScript number
that counts exactly far beyond any reachable value and is modelled by `Nat`.
The cells `user` and `loading` do not influence the counter and are left out; a
failed `fetchUser` calls `logout` and is the event `logout`. -/

/-- A value returned by `JSON.parse`. -/
inductive JsonValue where
  | null
  | bool (b : Bool)
  | num (n : ℚ)
  | str (s : String)
  | arr (items : List JsonValue)
  | obj (members : List (String × JsonValue))

/-- Property read `data[key]` on a parsed, non-null value: `undefined` (`none`)
unless `data` is an object with that key; of repeated keys in the JSON text the
last one is the one kept by `JSON.parse`. -/
def JsonValue.member (key : String) : JsonValue → Option JsonValue
  | JsonValue.obj members =>
    (members.reverse.find? (fun kv => kv.1 == key)).map Prod.snd
  | _ => none

/-- `data.type === 'update'` for the result of the property read. -/
def typeIsUpdate (v : Option JsonValue) : Bool :=
  match v with
  | some (JsonValue.str s) => s == "update"
  | _ => false

/-- `ws.onmessage` as a function on the counter:
`const data = JSON.parse(event.data); if (data.type === 'update')
setRefreshVersion(v => v + 1)`.  `parsed` is the outcome of `JSON.parse`,
`none` when it throws; for `null` the property read throws; in both cases the
handler ends without a state update. -/
def onmessage (parsed : Option JsonValue) (refreshVersion : Nat) : Nat :=
  match parsed with
  | none => refreshVersion
  | some JsonValue.null => refreshVersion
  | some data =>
    if typeIsUpdate (data.member "type") then refreshVersion + 1 else refreshVersion

/-- Ready state of a `WebSocket` (connecting and open are not distinguished:
in both the handlers are attached and `close()` has not been called). -/
inductive ReadyState where
  | opened
  | closing
  | closed
deriving DecidableEq

/-- State of a mounted or unmounted `AuthProvider`. -/
structure AuthState where
  token : Option String
  refreshVersion : Nat
  /-- Every socket created so far, oldest first. -/
  sockets : List ReadyState
  /-- Index of the socket `ws` captured by the cleanup of the last effect run. -/
  current : Option Nat
  /-- Due times of the pending `setTimeout(() => setRefreshVersion(v => v + 1), 3000)`. -/
  timers : List Nat
  clock : Nat
  mounted : Bool

/-- Events of the `AuthProvider` state machine. -/
inductive AuthEvent where
  /-- A message event on socket `i`; `parsed` is the outcome of `JSON.parse(event.data)`. -/
  | message (i : Nat) (parsed : Option JsonValue)
  /-- The `close` event of socket `i`. -/
  | close (i : Nat)
  /-- Time passes. -/
  | advance (dt : Nat)
  /-- The pending timeout number `j` runs its callback. -/
  | timerFire (j : Nat)
  /-- A successful `login`, the server having returned `tok`. -/
  | login (tok : String)
  | logout
  | unmount

/-- `ws.close()`: starts closing a socket that is not yet closing or closed. -/
def wsClose (r : ReadyState) : ReadyState :=
  match r with
  | ReadyState.opened => ReadyState.closing
  | r => r

/-- The effect cleanup `() => ws.close()` of the last effect run (there is none
when that run took the `else` branch). -/
def effectCleanup (s : AuthState) : AuthState :=
  match s.current with
  | none => s
  | some i =>
    { s with
      sockets := match s.sockets.get? i with
        | some r => s.sockets.set i (wsClose r)
        | none => s.sockets
      current := none }

/-- The effect body: `if (token) { ...; const ws = new WebSocket(wsUrl); ...;
return () => ws.close(); } else { setLoading(false); }`.  `null` and the empty
string are falsy. -/
def effectRun (s : AuthState) : AuthState :=
  match s.token with
  | none => { s with current := none }
  | some t =>
    if t = "" then { s with current := none }
    else { s with sockets := s.sockets ++ [ReadyState.opened],
                  current := some s.sockets.length }

/-- `setToken(tok)`: no re-render when the value is unchanged; otherwise the
effect, whose dependency list is `[token]`, is cleaned up and run again. -/
def setToken (tok : Option String) (s : AuthState) : AuthState :=
  if s.token = tok then s else effectRun (effectCleanup { s with token := tok })

/-- `ws.onclose`: `setTimeout(() => setRefreshVersion(v => v + 1), 3000)`. -/
def onclose (s : AuthState) : AuthState :=
  { s with timers := s.timers ++ [s.clock + 3000] }

/-- One event of the state machine. -/
def authStep (s : AuthState) (e : AuthEvent) : AuthState :=
  match e with
  | AuthEvent.message i parsed =>
    match s.sockets.get? i with
    | some ReadyState.opened =>
      if s.mounted then { s with refreshVersion := onmessage parsed s.refreshVersion } else s
    | _ => s
  | AuthEvent.close i =>
    match s.sockets.get? i with
    | some ReadyState.opened => onclose { s with sockets := s.sockets.set i ReadyState.closed }
    | some ReadyState.closing => onclose { s with sockets := s.sockets.set i ReadyState.closed }
    | _ => s
  | AuthEvent.advance dt => { s with clock := s.clock + dt }
  | AuthEvent.timerFire j =>
    match s.timers.get? j with
    | some due =>
      if due ≤ s.clock then
        { s with timers := s.timers.eraseIdx j
                 refreshVersion := if s.mounted then s.refreshVersion + 1
                                   else s.refreshVersion }
      else s
    | none => s
  | AuthEvent.login tok => if s.mounted then setToken (some tok) s else s
  | AuthEvent.logout => if s.mounted then setToken none s else s
  | AuthEvent.unmount => if s.mounted then { effectCleanup s with mounted := false } else s

/-- Whether an event is a successful `login`. -/
def AuthEvent.isLogin : AuthEvent → Bool
  | AuthEvent.login _ => true
  | _ => false

/-- A sequence of events, in order. -/
def authRun (s : AuthState) (events : List AuthEvent) : AuthState :=
  events.foldl authStep s

/-- The provider after mounting at time `clock`: `useState(localStorage.getItem('token'))`,
`useState(0)` and the first run of the effect. -/
def authInit (storedToken : Option String) (clock : Nat) : AuthState :=
  effectRun { token := storedToken, refreshVersion := 0, sockets := [], current := none,
              timers := [], clock := clock, mounted := true }

/-- A received message is an update notification when it parses to a value
whose `type` property is the string 'update'. -/
def IsUpdateMessage (parsed : Option JsonValue) : Prop :=
  ∃ data, parsed = some data ∧ data.member "type" = some (JsonValue.str "update")

/-! ## `lib/utils.js`: `getErrorMessage`

The caught `error`, the response body and the validation entries are values of
the JSON fragment of JavaScript, `JsonValue`; `undefined` is `none`.  A result
`none` of a function below means that the JavaScript code throws a
`TypeError`.  `ToString` of a number and `JSON.stringify` are library
functions, taken as the parameters `numberToString` and `jsonStringify`. -/

/-- Truthiness (`ToBoolean`) of a value. -/
def isTruthy : JsonValue → Bool
  | JsonValue.null => false
  | JsonValue.bool b => b
  | JsonValue.num n => decide (n ≠ 0)
  | JsonValue.str s => decide (s ≠ "")
  | JsonValue.arr _ => true
  | JsonValue.obj _ => true

/-- The optional chain step `v?.key`: `undefined` when `v` is `undefined` or
`null`, the property read otherwise. -/
def optChain (key : String) (v : Option JsonValue) : Option JsonValue :=
  match v with
  | none => none
  | some JsonValue.null => none
  | some x => x.member key

mutual
/-- `ToString(v)`: an array is joined with ","; a plain object gives
"[object Object]", unless it has an own property `toString`, which as parsed
data is not callable, so that the conversion throws. -/
def jsToString (numberToString : ℚ → String) : JsonValue → Option String
  | JsonValue.null => some "null"
  | JsonValue.bool b => some (if b then "true" else "false")
  | JsonValue.num n => some (numberToString n)
  | JsonValue.str s => some s
  | JsonValue.arr items =>
    match jsElementStrings numberToString items with
    | some parts => some (String.intercalate "," parts)
    | none => none
  | JsonValue.obj members =>
    if members.any (fun kv => kv.1 == "toString") then none else some "[object Object]"
/-- The strings that `Array.prototype.join` puts between the separators: the
empty string for `null`, `ToString` of the element otherwise. -/
def jsElementStrings (numberToString : ℚ → String) : List JsonValue → Option (List String)
  | [] => some []
  | JsonValue.null :: rest =>
    match jsElementStrings numberToString rest with
    | some parts => some ("" :: parts)
    | none => none
  | x :: rest =>
    match jsToString numberToString x, jsElementStrings numberToString rest with
    | some part, some parts => some (part :: parts)
    | _, _ => none
end

/-- `error.response?.data?.detail` for a truthy `error`. -/
def errorDetail (error : JsonValue) : Option JsonValue :=
  optChain "detail" (optChain "data" (error.member "response"))

/-- The callback of `detail.map`: the template literal with
`err.loc?.join(".") || "Erro"`, a colon and a space, and `err.msg`.  Reading
`loc` of `null` throws, and so does calling `join` on a `loc` that is neither
nullish nor an array. -/
def formatValidationEntry (numberToString : ℚ → String) (err : JsonValue) : Option String :=
  match err with
  | JsonValue.null => none
  | err =>
    let loc : Option String :=
      match err.member "loc" with
      | none => some "Erro"
      | some JsonValue.null => some "Erro"
      | some (JsonValue.arr items) =>
        match jsElementStrings numberToString items with
        | some parts =>
          let joined := String.intercalate "." parts
          some (if joined = "" then "Erro" else joined)
        | none => none
      | some _ => none
    let msg : Option String :=
      match err.member "msg" with
      | none => some "undefined"
      | some m => jsToString numberToString m
    match loc, msg with
    | some l, some m => some (l ++ ": " ++ m)
    | _, _ => none

/-- `detail.map(callback)`: the entries in order, throwing when a callback throws. -/
def formatValidationEntries (numberToString : ℚ → String) :
    List JsonValue → Option (List String)
  | [] => some []
  | err :: rest =>
    match formatValidationEntry numberToString err,
        formatValidationEntries numberToString rest with
    | some line, some lines => some (line :: lines)
    | _, _ => none

/-- `error.message || defaultMessage`. -/
def messageOrDefault (error : JsonValue) (defaultMessage : String) : JsonValue :=
  match error.member "message" with
  | some m => if isTruthy m then m else JsonValue.str defaultMessage
  | none => JsonValue.str defaultMessage

/-- `getErrorMessage(error, defaultMessage = "Ocorreu um erro inesperado")`.
The second argument is `none` when omitted. -/
def getErrorMessage (numberToString : ℚ → String) (jsonStringify : JsonValue → String)
    (error : Option JsonValue) (defaultMessage : Option String) : Option JsonValue :=
  let defaultMessage := defaultMessage.getD "Ocorreu um erro inesperado"
  match error with
  | none => some (JsonValue.str defaultMessage)
  | some error =>
    if !isTruthy error then some (JsonValue.str defaultMessage)
    else
      match errorDetail error with
      | none => some (messageOrDefault error defaultMessage)
      | some detail =>
        if !isTruthy detail then some (messageOrDefault error defaultMessage)
        else
          match detail with
          | JsonValue.arr items =>
            match formatValidationEntries numberToString items with
            | some lines => some (JsonValue.str (String.intercalate "\n" lines))
            | none => none
          | JsonValue.str s => some (JsonValue.str s)
          | other =>
            let text := jsonStringify other
            some (JsonValue.str (if text = "" then defaultMessage else text))

/-! ## Fetch effects of the views -/

/-- The views that fetch data in a `useEffect`. -/
inductive View where
  | dashboard
  | vestidos
  | alugueis
  | detalhesAluguel
  | detalhesVestido
  | novoAluguel
deriving DecidableEq

/-- The values that occur in the dependency arrays of the fetch effects. -/
inductive Dep where
  | refreshVersion
  | id
  | categoriaFilter
  | statusFilter
deriving DecidableEq

/-- The dependency array of the fetch effect of each view:
`[refreshVersion]` in `Dashboard.js`,
`[categoriaFilter, statusFilter, refreshVersion]` in `Vestidos.js`,
`[statusFilter, refreshVersion]` in `Alugueis.js`, `[id, refreshVersion]` in
`DetalhesAluguel.js` and `DetalhesVestido.js`, `[]` in `NovoAluguel.js`. -/
def fetchEffectDeps : View → List Dep
  | View.dashboard => [Dep.refreshVersion]
  | View.vestidos => [Dep.categoriaFilter, Dep.statusFilter, Dep.refreshVersion]
  | View.alugueis => [Dep.statusFilter, Dep.refreshVersion]
  | View.detalhesAluguel => [Dep.id, Dep.refreshVersion]
  | View.detalhesVestido => [Dep.id, Dep.refreshVersion]
  | View.novoAluguel => []

/-- The values of the possible dependencies in one render of a view. -/
structure RenderValues where
  refreshVersion : Nat
  id : String
  categoriaFilter : String
  statusFilter : String

/-- Whether a dependency differs between two renders. -/
def depChanged (d : Dep) (previous next : RenderValues) : Bool :=
  match d with
  | Dep.refreshVersion => previous.refreshVersion != next.refreshVersion
  | Dep.id => previous.id != next.id
  | Dep.categoriaFilter => previous.categoriaFilter != next.categoriaFilter
  | Dep.statusFilter => previous.statusFilter != next.statusFilter

/-- React runs an effect again after a render exactly when one of the values of
its dependency array differs from the previous render. -/
def effectReruns (deps : List Dep) (previous next : RenderValues) : Bool :=
  deps.any (fun d => depChanged d previous next)

/-! ## Query parameters of the list views -/

/-- `fetchVestidos`: `const params = {}; if (categoriaFilter) params.categoria =
categoriaFilter; if (statusFilter) params.status = statusFilter; if (search)
params.search = search;`, as the list of the keys of `params` with their values. -/
def fetchVestidosParams (categoriaFilter statusFilter search : String) :
    List (String × String) :=
  (if categoriaFilter ≠ "" then [("categoria", categoriaFilter)] else []) ++
  (if statusFilter ≠ "" then [("status", statusFilter)] else []) ++
  (if search ≠ "" then [("search", search)] else [])

/-- `fetchAlugueis`: `const params = {}; if (statusFilter) params.status =
statusFilter; if (search) params.search = search;`. -/
def fetchAlugueisParams (statusFilter search : String) : List (String × String) :=
  (if statusFilter ≠ "" then [("status", statusFilter)] else []) ++
  (if search ≠ "" then [("search", search)] else [])

/-! ## `pages/DetalhesAluguel.js`: operator interactions -/

/-- The values of the `SelectItem`s of the status select of the detail view. -/
def statusSelectOptions : List String := ["ativo", "finalizado", "atrasado"]

/-- Interactions with the contract detail view that write the cells read by
`handleUpdate`. -/
inductive DetalhesEvent where
  /-- The operator picks an item of the status select (`onValueChange={setStatus}`). -/
  | selectStatus (value : String)
  /-- The operator edits the damage notes (`setAvarias(e.target.value)`). -/
  | editAvarias (text : String)
  /-- A run of `fetchAluguel` completes with the contract `data`. -/
  | reload (data : Aluguel)

/-- One interaction.  The select only offers its own items. -/
def detalhesStep (s : DetalhesState) (e : DetalhesEvent) : DetalhesState :=
  match e with
  | DetalhesEvent.selectStatus value =>
    if value ∈ statusSelectOptions then { s with status := value } else s
  | DetalhesEvent.editAvarias text => { s with avarias := text }
  | DetalhesEvent.reload data => fetchAluguel data

/-- A sequence of interactions, in order. -/
def detalhesRun (s : DetalhesState) (events : List DetalhesEvent) : DetalhesState :=
  events.foldl detalhesStep s

/-- The stored statuses of the contracts loaded by the `reload` events. -/
def reloadedStatuses : List DetalhesEvent → List String
  | [] => []
  | DetalhesEvent.reload data :: rest => data.status :: reloadedStatuses rest
  | _ :: rest => reloadedStatuses rest

/-! ## `pages/NovoAluguel.js`: submitted dates

The value of an `<Input type="date">` is the empty string or a date string
whose year has four or more digits (`YYYY-MM-DD`, `10000-01-01`); the inputs of
the form set no `max`.  It is modelled by the day number of the chosen calendar
date (days since 1970-01-01), `none` when the field holds no date.  A value
with a four-digit year is a date-only string of the ECMAScript date-time format
and is read as UTC: the time value of `new Date(value)` is the day number times
the length of a day.  A value with a longer year is not of that format and
ECMAScript leaves its reading to the implementation. -/

/-- `msPerDay`. -/
def msPerDay : Int := 86400000

/-- `new Date(value)` for the value of a date input: its time value, `none`
for `Invalid Date`.  The days `-719162` (0001-01-01) to `2932896` (9999-12-31)
are those with a four-digit year, read as UTC midnight.  For any other day the
string falls back to the implementation-specific parser, the parameter
`legacyParse` (V8 reads `10000-01-01` as midnight local time). -/
def newDateOfDateInput (legacyParse : Int → Option Int) (value : Option Int) : Option Int :=
  match value with
  | none => none
  | some day =>
    if -719162 ≤ day ∧ day ≤ 2932896 then some (day * msPerDay) else legacyParse day

/-- `Day(t)`, the day number of a time value. -/
def dayOfTimeValue (t : Int) : Int := t / msPerDay

/-- `TimeWithinDay(t)`, the milliseconds since 00:00:00.000 UTC of the day. -/
def timeWithinDay (t : Int) : Int := t % msPerDay

/-- The instants denoted by the two date strings of the payload of
`handleSubmit`: `new Date(formData.data_retirada).toISOString()` and
`new Date(formData.data_devolucao).toISOString()`.  `toISOString` throws on an
`Invalid Date`; then no request is sent (`none`). -/
def handleSubmitDatas (legacyParse : Int → Option Int)
    (data_retirada data_devolucao : Option Int) : Option (Int × Int) :=
  match newDateOfDateInput legacyParse data_retirada,
    newDateOfDateInput legacyParse data_devolucao with
  | some retirada, some devolucao => some (retirada, devolucao)
  | _, _ => none

/-! ## Reconciliation Service (backend) -/

/-- Availability status of an inventory item. -/
inductive ItemStatus where
  | available
  | rented
  | reserved
  | maintenance
deriving DecidableEq

/-- An inventory item, as far as the contract operations read and write it. -/
structure InventoryItem where
  id : String
  status : ItemStatus
deriving DecidableEq

/-- The customer embedded in a contract. -/
structure Customer where
  fullName : String
  nationalId : String
  phone : String
  address : String

/-- The arguments of `createContract` other than the referenced item. -/
structure ContractRequest where
  customer : Customer
  pickup : Int
  due : Int
  price : ℚ
  deposit : ℚ
  paymentMethod : String
  remarks : String

/-- Stored status of a contract. -/
inductive ContractStatus where
  | active
  | settled
  | late
deriving DecidableEq

/-- A stored rental contract. -/
structure RentalContract where
  itemId : String
  request : ContractRequest
  status : ContractStatus
  amountPaid : ℚ

/-- The failures of the service. -/
inductive ServiceError where
  | conflictError
  | validationError
  | notFoundError
deriving DecidableEq

/-- Modelled from the spec: the `ValidationError` condition of `createContract`
(the backend is not among the source files): "`due < pickup`, or any required
field is empty/malformed (identifier format, non-negative monetary fields)".
Which text fields are required and the identifier format are not given; they
are the parameter `wellFormed`. -/
def validationFails (wellFormed : ContractRequest → Bool) (r : ContractRequest) : Bool :=
  decide (r.due < r.pickup) || !wellFormed r || decide (r.price < 0) || decide (r.deposit < 0)

/-- Modelled from the spec: `createContract` of the Reconciliation Service (the
backend is not among the source files), applied to the referenced item.  It
"fails with `ConflictError` if the referenced item's current availability is not
`available`", "fails with `ValidationError`" on invalid input, and "on success
creates the contract with `status = active`, `amount_paid = 0`, transitions the
item to `rented`" and returns the created contract.  On failure nothing is
written.  The conditions are tested in the order in which the spec lists them. -/
def createContract (wellFormed : ContractRequest → Bool) (item : InventoryItem)
    (r : ContractRequest) : Except ServiceError (InventoryItem × RentalContract) :=
  if item.status ≠ ItemStatus.available then Except.error ServiceError.conflictError
  else if validationFails wellFormed r then Except.error ServiceError.validationError
  else
    Except.ok ({ item with status := ItemStatus.rented },
      { itemId := item.id, request := r, status := ContractStatus.active, amountPaid := 0 })

/-- The item after a call of `createContract`: the written item on success, the
item as it was on failure. -/
def itemAfterCreate (wellFormed : ContractRequest → Bool) (item : InventoryItem)
    (r : ContractRequest) : InventoryItem :=
  match createContract wellFormed item r with
  | Except.ok (written, _) => written
  | Except.error _ => item

/-- Modelled from the spec: the status part of `updateContract` of the
Reconciliation Service (the backend is not among the source files), applied to
an existing contract and its owning item.  "If `status` transitions from
non-`settled` to `settled`: the owning item transitions back to `available`,
unless the item was placed into `maintenance` by an operator in the interim,
which takes precedence."  "If `status` transitions away from `settled` back to
`active` (reopening): the item must be currently `available` or the operation
fails with `ConflictError`"; a successful reopening makes the item `rented`.
Any other update writes the status and leaves the item alone; an update
without a `status` field changes neither. -/
def updateContractStatus (contract : RentalContract) (item : InventoryItem)
    (newStatus : Option ContractStatus) :
    Except ServiceError (RentalContract × InventoryItem) :=
  match newStatus with
  | none => Except.ok (contract, item)
  | some ContractStatus.settled =>
    if contract.status ≠ ContractStatus.settled then
      Except.ok ({ contract with status := ContractStatus.settled },
        if item.status = ItemStatus.maintenance then item
        else { item with status := ItemStatus.available })
    else Except.ok (contract, item)
  | some ContractStatus.active =>
    if contract.status = ContractStatus.settled then
      if item.status = ItemStatus.available then
        Except.ok ({ contract with status := ContractStatus.active },
          { item with status := ItemStatus.rented })
      else Except.error ServiceError.conflictError
    else Except.ok ({ contract with status := ContractStatus.active }, item)
  | some ContractStatus.late =>
    Except.ok ({ contract with status := ContractStatus.late }, item)

/-! ## Validation entries, as the claims word them -/

/-- A segment of the location of a validation entry: a field name or an index. -/
inductive LocSegment where
  | campo (nome : String)
  | indice (n : ℚ)

/-- A validation entry of a FastAPI/Pydantic error response: an optional
location and a message. -/
structure ValidationEntry where
  loc : Option (List LocSegment)
  msg : String

/-- The JSON value of a segment. -/
def LocSegment.toJson : LocSegment → JsonValue
  | LocSegment.campo nome => JsonValue.str nome
  | LocSegment.indice n => JsonValue.num n

/-- The JSON object of an entry: `{"loc": [...], "msg": "..."}`, the key `loc`
being left out when the entry has no location. -/
def ValidationEntry.toJson (e : ValidationEntry) : JsonValue :=
  match e.loc with
  | none => JsonValue.obj [("msg", JsonValue.str e.msg)]
  | some segments =>
    JsonValue.obj [("loc", JsonValue.arr (segments.map LocSegment.toJson)),
      ("msg", JsonValue.str e.msg)]

/-- The text of a segment. -/
def LocSegment.text (numberToString : ℚ → String) : LocSegment → String
  | LocSegment.campo nome => nome
  | LocSegment.indice n => numberToString n

/-- The line of an entry as the claim words it: the segments of the location
joined by ".", or the literal "Erro" when the location is absent or empty,
then a colon, a space and the message. -/
def renderValidationEntry (numberToString : ℚ → String) (e : ValidationEntry) : String :=
  (match e.loc with
    | none => "Erro"
    | some [] => "Erro"
    | some segments =>
      String.intercalate "." (segments.map (LocSegment.text numberToString)))
    ++ ": " ++ e.msg

/-! ## Filter selects of the list views -/

/-- The item values of the status select of `Alugueis.js`. -/
def alugueisStatusOptions : List String := ["todos", "ativo", "finalizado", "atrasado"]

/-- The item values of the category select of `Vestidos.js`. -/
def vestidosCategoriaOptions : List String :=
  ["todos", "festa", "noiva", "madrinha", "debutante"]

/-- The item values of the status select of `Vestidos.js`. -/
def vestidosStatusOptions : List String :=
  ["todos", "disponivel", "alugado", "reservado", "manutencao"]

/-! ## `pages/NovoAluguel.js`: choosing the item -/

/-- An item of the fetched list of available items. -/
structure Vestido where
  id : String
  nome : String
  codigo : String
  valor_aluguel : ℚ

/-- A value of the form field `valor_aluguel`: a string (the initial `''`, or
what the operator typed) or a number (copied from an item). -/
inductive FormValor where
  | texto (s : String)
  | numero (n : ℚ)
deriving DecidableEq

/-- The cell `formData` of `NovoAluguel`; the two dates are the values of the
date inputs, as above. -/
structure NovoAluguelForm where
  vestido_id : String
  cliente_nome : String
  cliente_cpf : String
  cliente_telefone : String
  cliente_endereco : String
  data_retirada : Option Int
  data_devolucao : Option Int
  valor_aluguel : FormValor
  valor_sinal : String
  forma_pagamento : String
  observacoes : String

/-- The cells of `NovoAluguel` that `handleVestidoChange` reads and writes. -/
structure NovoAluguelState where
  vestidos : List Vestido
  vestidoSelecionado : Option Vestido
  formData : NovoAluguelForm

/-- `handleVestidoChange(vestidoId)`:
`const vestido = vestidos.find(v => v.id === vestidoId);
setVestidoSelecionado(vestido); handleChange('vestido_id', vestidoId);
handleChange('valor_aluguel', vestido?.valor_aluguel || '');`
The number `0` is falsy, like a missing item. -/
def handleVestidoChange (vestidoId : String) (s : NovoAluguelState) : NovoAluguelState :=
  let vestido := s.vestidos.find? (fun v => v.id == vestidoId)
  { s with
    vestidoSelecionado := vestido
    formData :=
      { s.formData with
        vestido_id := vestidoId
        valor_aluguel :=
          match vestido with
          | none => FormValor.texto ""
          | some v =>
            if v.valor_aluguel = 0 then FormValor.texto "" else FormValor.numero v.valor_aluguel } }

/-! ## `components/Layout.js`: the active sidebar entry

Strings are compared as lists of characters. -/

/-- The `path`s of `menuItems`. -/
def menuItemPaths : List String := ["/dashboard", "/vestidos", "/alugueis"]

/-- `isActive(path)`:
`location.pathname === path || location.pathname.startsWith(path + '/')`. -/
def isActive (pathname path : String) : Bool :=
  pathname == path || (path.data ++ ['/']).isPrefixOf pathname.data

/-! ## `fix-aliases.js`: rewriting the `@/` import aliases

File contents and paths are lists of characters.  `path.relative` and
`path.join` are the POSIX functions of Node.js; `walk` only reaches files
below `srcDir`, so the position of a file is the number `k` of directory levels
between `srcDir` and the directory of the file. -/

/-- The single quote. -/
def aspaSimples : Char := Char.ofNat 39

/-- The double quote. -/
def aspaDupla : Char := Char.ofNat 34

/-- The backslash. -/
def barraInvertida : Char := Char.ofNat 92

/-- The character class of the regular expression that holds the two quotes. -/
def isQuote (c : Char) : Bool := c == aspaSimples || c == aspaDupla

/-- The line terminators, which `.` of a regular expression does not match. -/
def isLineTerminator (c : Char) : Bool :=
  c == Char.ofNat 10 || c == Char.ofNat 13 || c == Char.ofNat 8232 || c == Char.ofNat 8233

/-- The lazy group `(.*?)` followed by the closing quote class: the characters
up to the first quote, when no line terminator comes before it, and the text
after that quote. -/
def takeSpecifier : List Char → Option (List Char × List Char)
  | [] => none
  | c :: rest =>
    if isQuote c then some ([], rest)
    else if isLineTerminator c then none
    else
      match takeSpecifier rest with
      | some (p1, after) => some (c :: p1, after)
      | none => none

/-- The segments of a path between the separators "/". -/
def splitSlash : List Char → List (List Char)
  | [] => [[]]
  | c :: rest =>
    if c = '/' then [] :: splitSlash rest
    else
      match splitSlash rest with
      | [] => [[c]]
      | seg :: segs => (c :: seg) :: segs

/-- The segments of a path joined by the separator "/". -/
def joinSlash : List (List Char) → List Char
  | [] => []
  | [seg] => seg
  | seg :: rest => seg ++ '/' :: joinSlash rest

/-- `normalizeString` of Node.js on the segments of a path, the segments kept so
far being `acc`, last one first: empty segments and "." are dropped, ".."
removes the last kept segment unless none is kept or it is ".." itself; then it
is kept when the path is relative (`allowAboveRoot`) and dropped otherwise. -/
def normalizeSegments (allowAboveRoot : Bool) :
    List (List Char) → List (List Char) → List (List Char)
  | acc, [] => acc.reverse
  | acc, seg :: rest =>
    if seg = [] ∨ seg = ['.'] then normalizeSegments allowAboveRoot acc rest
    else if seg = ['.', '.'] then
      match acc with
      | last :: kept =>
        if last = ['.', '.'] then normalizeSegments allowAboveRoot (seg :: acc) rest
        else normalizeSegments allowAboveRoot kept rest
      | [] =>
        if allowAboveRoot then normalizeSegments allowAboveRoot [seg] rest
        else normalizeSegments allowAboveRoot [] rest
    else normalizeSegments allowAboveRoot (seg :: acc) rest

/-- `path.posix.normalize`. -/
def pathNormalize (path : List Char) : List Char :=
  if path = [] then ['.']
  else
    let isAbsolute := path.head? == some '/'
    let trailingSeparator := path.getLast? == some '/'
    let body := joinSlash (normalizeSegments (!isAbsolute) [] (splitSlash path))
    if body = [] then
      if isAbsolute then ['/'] else if trailingSeparator then ['.', '/'] else ['.']
    else
      let body := if trailingSeparator then body ++ ['/'] else body
      if isAbsolute then '/' :: body else body

/-- `path.posix.join(a, b)`: the non-empty arguments joined by "/" and
normalized; "." when both are empty. -/
def pathJoin (a b : List Char) : List Char :=
  if a = [] then (if b = [] then ['.'] else pathNormalize b)
  else if b = [] then pathNormalize a
  else pathNormalize (a ++ '/' :: b)

/-- `path.relative(fileDir, srcDir) || '.'` for a file whose directory lies `k`
levels below `srcDir`. -/
def relativeToSrc (k : Nat) : List Char :=
  if k = 0 then ['.'] else joinSlash (List.replicate k ['.', '.'])

/-- The replacement callback of `fixFile` for a match that starts with the
quote `quote` and whose group is `p1`:
`let relPath = path.join(relativeToSrc, p1).replace(/\\/g, '/');
if (!relPath.startsWith('.')) relPath = './' + relPath;`, returned between two
single quotes when the match starts with a single quote and between two double
quotes otherwise. -/
def rewriteSpecifier (k : Nat) (quote : Char) (p1 : List Char) : List Char :=
  let relPath := (pathJoin (relativeToSrc k) p1).map
    (fun c => if c = barraInvertida then '/' else c)
  let relPath := if relPath.head? = some '.' then relPath else '.' :: '/' :: relPath
  let wrap := if quote = aspaSimples then aspaSimples else aspaDupla
  wrap :: relPath ++ [wrap]

/-- `content.replace(/['"]@\/(.*?)['"]/g, callback)`: the matches are searched
from left to right, each search resuming after the previous match; `fuel`
bounds the number of steps and `content.length + 1` is enough. -/
def replaceAliases (k : Nat) : Nat → List Char → List Char
  | 0, content => content
  | _ + 1, [] => []
  | fuel + 1, c :: rest =>
    if isQuote c && ['@', '/'].isPrefixOf rest then
      match takeSpecifier (rest.drop 2) with
      | some (p1, after) => rewriteSpecifier k c p1 ++ replaceAliases k fuel after
      | none => c :: replaceAliases k fuel rest
    else c :: replaceAliases k fuel rest

/-- A text in which the regular expression cannot start a match: no quote is
followed by "@/". -/
def aliasFree : List Char → Bool
  | [] => true
  | c :: rest => !(isQuote c && ['@', '/'].isPrefixOf rest) && aliasFree rest

/-- A character of an ordinary path segment: not a separator, a backslash, a
quote or a line terminator. -/
def ordinaryChar (c : Char) : Bool :=
  c != '/' && c != barraInvertida && !isQuote c && !isLineTerminator c

/-- An ordinary path segment: non-empty, neither "." nor "..", made of ordinary
characters. -/
def ordinarySegment (seg : List Char) : Bool :=
  seg != [] && seg != ['.'] && seg != ['.', '.'] && seg.all ordinaryChar

/-- The specifier that the claim words for a path `p` at `k` levels below
`src`: `k` repetitions of "../" followed by `p`, or "./" followed by `p` when
`k = 0`. -/
def aliasTarget (k : Nat) (p : List Char) : List Char :=
  if k = 0 then '.' :: '/' :: p else (List.replicate k ['.', '.', '/']).flatten ++ p

/-- `content.includes('@/')`. -/
def includesAlias : List Char → Bool
  | [] => false
  | [_] => false
  | c :: d :: rest => (c == '@' && d == '/') || includesAlias (d :: rest)

/-- The content of the file after `fixFile(filePath)`, for a file `k` levels
below `srcDir` with the content `content`: unchanged when it does not include
"@/", the result of the replacement otherwise (it is written only when it
differs). -/
def fixFile (k : Nat) (content : String) : String :=
  if !includesAlias content.data then content
  else String.mk (replaceAliases k (content.data.length + 1) content.data)

/-! ## Auxiliary lemmas on the day count -/

theorem mathCeilDiv_eq_ceil (x d : Int) (hd : 0 < d) :
    mathCeilDiv x d = Int.ceil ((x : ℚ) / (d : ℚ)) := by
  have h : ((x : ℚ) / (d : ℚ)) = -(((-x : Int) : ℚ) / ((d.toNat : Nat) : ℚ)) := by
    have hd2 : ((d.toNat : Nat) : ℚ) = (d : ℚ) := by
      have : ((d.toNat : Int)) = d := Int.toNat_of_nonneg hd.le
      exact_mod_cast this
    rw [hd2]; push_cast; ring
  rw [h, Int.ceil_neg, Rat.floor_intCast_div_natCast, Int.toNat_of_nonneg hd.le]
  rfl

theorem mathCeilDiv_nonneg_iff (x d : Int) (hd : 0 < d) :
    0 ≤ mathCeilDiv x d ↔ -d < x := by
  unfold mathCeilDiv
  constructor
  · intro h
    have h1 : (-x) / d ≤ 0 := by omega
    have h2 : (-x) / d < 1 := by omega
    have h3 := (Int.ediv_lt_iff_lt_mul hd).mp h2
    omega
  · intro h
    have h3 : (-x) / d < 1 := (Int.ediv_lt_iff_lt_mul hd).mpr (by omega)
    omega

theorem mathCeilDiv_le_iff (x d k : Int) (hd : 0 < d) :
    mathCeilDiv x d ≤ k ↔ x ≤ k * d := by
  unfold mathCeilDiv
  constructor
  · intro h
    have h1 : -k ≤ (-x) / d := by omega
    have h2 := (Int.le_ediv_iff_mul_le hd).mp h1
    have : -k * d = -(k * d) := by ring
    omega
  · intro h
    have h2 : -k ≤ (-x) / d := (Int.le_ediv_iff_mul_le hd).mpr (by
      have : -k * d = -(k * d) := by ring
      omega)
    omega

theorem isProximo_some_iff (hoje devolucao : Int) :
    isProximo hoje (some devolucao) = true ↔
      hoje - 86400000 < devolucao ∧ devolucao ≤ hoje + 3 * 86400000 := by
  have hd : (0 : Int) < 1000 * 60 * 60 * 24 := by decide
  simp only [isProximo, Bool.and_eq_true, decide_eq_true_eq, ge_iff_le]
  rw [mathCeilDiv_nonneg_iff _ _ hd, mathCeilDiv_le_iff _ _ _ hd]
  constructor <;> intro h <;> constructor <;> omega

/-! ## Derived badges at a single clock reading -/

/-- C1: at every clock reading `now` the late badge of the rental list is shown
exactly when the stored status is 'ativo' and the return-due instant is
strictly before `now`; a contract due exactly at `now` is not late. -/
theorem badgeAtrasado_iff (aluguel : Aluguel) (now : Int) :
    (badgeAtrasado now aluguel = true ↔
      aluguel.status = "ativo" ∧
        ∃ devolucao, aluguel.data_devolucao = some devolucao ∧ devolucao < now) ∧
    badgeAtrasado now { aluguel with data_devolucao := some now } = false := by
  constructor
  · cases hdd : aluguel.data_devolucao with
    | none => simp [badgeAtrasado, isAtrasado, hdd]
    | some d => simp [badgeAtrasado, isAtrasado, hdd]
  · simp [badgeAtrasado, isAtrasado]

/-- C2: at every clock reading `now` the due-soon badge is shown exactly when
the stored status is 'ativo', the day count
`d = ceiling((data_devolucao - now) / 86400000)` satisfies `0 ≤ d ≤ 3`, and the
contract is not late at `now`. -/
theorem badgeProximo_iff (aluguel : Aluguel) (now : Int) :
    badgeProximo now now aluguel = true ↔
      aluguel.status = "ativo" ∧
        (∃ devolucao, aluguel.data_devolucao = some devolucao ∧
          0 ≤ Int.ceil (((devolucao - now : Int) : ℚ) / 86400000) ∧
          Int.ceil (((devolucao - now : Int) : ℚ) / 86400000) ≤ 3) ∧
        badgeAtrasado now aluguel = false := by
  have hd : (0 : Int) < 1000 * 60 * 60 * 24 := by decide
  have hc : ∀ x : Int, Int.ceil ((x : ℚ) / 86400000) = mathCeilDiv x (1000 * 60 * 60 * 24) := by
    intro x
    rw [mathCeilDiv_eq_ceil _ _ hd]
    norm_num
  cases hdd : aluguel.data_devolucao with
  | none => simp [badgeProximo, isProximo, hdd]
  | some d =>
    simp only [badgeProximo, badgeAtrasado, isProximo, isAtrasado, hdd, hc,
      Bool.and_eq_true, beq_iff_eq, decide_eq_true_eq, Bool.not_eq_true',
      decide_eq_false_iff_not, Bool.and_eq_false_iff, ge_iff_le, Option.some.injEq,
      exists_eq_left']
    constructor
    · rintro ⟨⟨hs, h1, h2⟩, h3⟩
      exact ⟨hs, ⟨h1, h2⟩, Or.inr h3⟩
    · rintro ⟨hs, ⟨h1, h2⟩, h3⟩
      refine ⟨⟨hs, h1, h2⟩, ?_⟩
      rcases h3 with h3 | h3
      · exact absurd hs (by simpa using h3)
      · exact h3

/-- C3: at a single clock reading `now` the late badge and the due-soon badge
of a contract are never both shown. -/
theorem badges_mutually_exclusive (aluguel : Aluguel) (now : Int) :
    (badgeAtrasado now aluguel && badgeProximo now now aluguel) = false := by
  simp only [badgeAtrasado, badgeProximo]
  cases aluguel.status == "ativo" <;> cases isAtrasado now aluguel.data_devolucao <;>
    cases isProximo now aluguel.data_devolucao <;> rfl

/-- C4: for an active contract with return-due instant `devolucao` (integer
milliseconds) the due-soon badge is shown exactly when
`now ≤ devolucao ≤ now + 3 * 86400000`; a contract due exactly at `now` is due
soon and one due 3 days plus 1 ms ahead is not. -/
theorem badgeProximo_window (aluguel : Aluguel) (now devolucao : Int)
    (hstatus : aluguel.status = "ativo")
    (hdev : aluguel.data_devolucao = some devolucao) :
    (badgeProximo now now aluguel = true ↔
      now ≤ devolucao ∧ devolucao ≤ now + 3 * 86400000) ∧
    badgeProximo now now { aluguel with data_devolucao := some now } = true ∧
    badgeProximo now now
      { aluguel with data_devolucao := some (now + 3 * 86400000 + 1) } = false := by
  have key : ∀ d : Int, badgeProximo now now { aluguel with data_devolucao := some d } = true ↔
      now ≤ d ∧ d ≤ now + 3 * 86400000 := by
    intro d
    simp only [badgeProximo, hstatus, beq_self_eq_true, Bool.true_and, Bool.and_eq_true,
      isProximo_some_iff, isAtrasado, Bool.not_eq_true', decide_eq_false_iff_not]
    constructor <;> intro h <;> refine ⟨?_, ?_⟩ <;> omega
  have hself : { aluguel with data_devolucao := some devolucao } = aluguel := by
    cases aluguel; simp_all
  refine ⟨?_, ?_, ?_⟩
  · rw [← hself]; exact key devolucao
  · exact (key now).mpr ⟨le_refl _, by omega⟩
  · rw [Bool.eq_false_iff]
    intro h
    have := (key _).mp h
    omega

/-- Witness of C4: an active contract due two days after `now = 1000`. -/
theorem badgeProximo_window_witness :
    (badgeProximo 1000 1000
        ⟨"a1", "v1", "ativo", some (1000 + 2 * 86400000), 200, some 50, none, none⟩ = true ↔
      (1000 : Int) ≤ 1000 + 2 * 86400000 ∧
        (1000 : Int) + 2 * 86400000 ≤ 1000 + 3 * 86400000) ∧
    badgeProximo 1000 1000
      { (⟨"a1", "v1", "ativo", some (1000 + 2 * 86400000), 200, some 50, none, none⟩ : Aluguel)
        with data_devolucao := some 1000 } = true ∧
    badgeProximo 1000 1000
      { (⟨"a1", "v1", "ativo", some (1000 + 2 * 86400000), 200, some 50, none, none⟩ : Aluguel)
        with data_devolucao := some (1000 + 3 * 86400000 + 1) } = false :=
  badgeProximo_window
    ⟨"a1", "v1", "ativo", some (1000 + 2 * 86400000), 200, some 50, none, none⟩
    1000 (1000 + 2 * 86400000) rfl rfl

/-- C5: for a contract whose stored status is not 'ativo' neither the late
badge nor the due-soon badge is shown, whatever the return-due date and the
clock readings. -/
theorem badges_hidden_when_not_ativo (aluguel : Aluguel) (t0 t1 t2 : Int)
    (hstatus : aluguel.status ≠ "ativo") :
    badgeAtrasado t0 aluguel = false ∧ badgeProximo t1 t2 aluguel = false := by
  have hb : (aluguel.status == "ativo") = false := by simpa using hstatus
  simp [badgeAtrasado, badgeProximo, hb]

/-- Witness of C5: a settled ('finalizado') contract that is long overdue. -/
theorem badges_hidden_when_not_ativo_witness :
    badgeAtrasado 5000 ⟨"a1", "v1", "finalizado", some 10, 200, some 200, none, none⟩ = false ∧
    badgeProximo 5000 5000
      ⟨"a1", "v1", "finalizado", some 10, 200, some 200, none, none⟩ = false :=
  badges_hidden_when_not_ativo
    ⟨"a1", "v1", "finalizado", some 10, 200, some 200, none, none⟩ 5000 5000 5000 (by decide)

/-! ## Outstanding balance of the detail view -/

theorem toFixed_neg (g : ℚ → String) (x : ℚ) (f : Nat) (hx : x < 0) :
    toFixed g x f = String.mk ('-' :: (toFixed g (-x) f).data) := by
  have h1 : ¬ (-x < 0) := by linarith
  simp only [toFixed, hx, h1, if_true, if_false]
  split_ifs <;> simp

theorem toFixed_two_ne_empty (g : ℚ → String) (x : ℚ) (hx : |x| < (10 : ℚ) ^ 21) :
    toFixed g x 2 ≠ "" := by
  have h2 : ¬ ((10 : ℚ) ^ 21 ≤ if x < 0 then -x else x) := by
    split_ifs with h
    · rw [abs_of_neg h] at hx; linarith
    · rw [abs_of_nonneg (not_lt.mp h)] at hx; linarith
  intro h
  have h3 := congrArg String.data h
  simp only [toFixed, h2, if_false] at h3
  simp at h3

theorem toFixed_zero_two (g : ℚ → String) : toFixed g 0 2 = "0.00" := by
  have h1 : ¬ ((0 : ℚ) < 0) := lt_irrefl _
  have h2 : ¬ ((10 : ℚ) ^ 21 ≤ 0) := by norm_num
  have h3 : (Int.floor ((0 : ℚ) * (10 : ℚ) ^ 2 + 1 / 2)).toNat = 0 := by norm_num
  simp only [toFixed, h1, h2, h3, if_false, if_true]
  decide

theorem orZero_eq_getD (v : Option ℚ) : orZero v = v.getD 0 := by
  cases v with
  | none => rfl
  | some x =>
    simp only [orZero, Option.getD_some]
    split_ifs with h
    · exact h.symm
    · rfl

theorem roundHalfEven_intCast (k : Int) : roundHalfEven (k : ℚ) = k := by
  simp [roundHalfEven]

theorem roundHalfEven_pos (y : ℚ) (hy : 1 ≤ y) : 1 ≤ roundHalfEven y := by
  have hf : 1 ≤ Int.floor y := Int.le_floor.mpr (by simpa using hy)
  simp only [roundHalfEven]
  split_ifs <;> omega

theorem roundDouble_grid (x : ℚ) :
    ∃ m : Int, roundDouble x = (m : ℚ) * (2 : ℚ) ^ (-1074 : Int) := by
  by_cases hx : x = 0
  · exact ⟨0, by simp [roundDouble, hx]⟩
  · simp only [roundDouble, hx, if_false]
    generalize hE : max (Int.log 2 |x|) (-1022) = e
    have he : (-1022 : Int) ≤ e := by rw [← hE]; exact le_max_right _ _
    obtain ⟨k, hk⟩ : ∃ k : Nat, e - 52 = (k : Int) + (-1074) := ⟨(e + 1022).toNat, by omega⟩
    have h2 : (2 : ℚ) ^ (e - 52) = (2 : ℚ) ^ k * (2 : ℚ) ^ (-1074 : Int) := by
      rw [hk, zpow_add₀ (by norm_num : (2 : ℚ) ≠ 0), zpow_natCast]
    refine ⟨(if x < 0 then -1 else 1) * roundHalfEven (|x| / (2 : ℚ) ^ (e - 52)) * 2 ^ k, ?_⟩
    rw [h2]
    push_cast
    split_ifs <;> ring

theorem roundDouble_neg_of_le (x : ℚ) (hx : x ≤ -(2 : ℚ) ^ (-1074 : Int)) :
    roundDouble x < 0 := by
  have hu : (0 : ℚ) < (2 : ℚ) ^ (-1074 : Int) := zpow_pos (by norm_num) _
  have hneg : x < 0 := by linarith
  have hx0 : x ≠ 0 := ne_of_lt hneg
  have habs : (2 : ℚ) ^ (-1074 : Int) ≤ |x| := by rw [abs_of_neg hneg]; linarith
  have hpos : 0 < |x| := lt_of_lt_of_le hu habs
  simp only [roundDouble, hx0, hneg, if_false, if_true]
  generalize hE : max (Int.log 2 |x|) (-1022) = e
  have hq : (0 : ℚ) < (2 : ℚ) ^ (e - 52) := zpow_pos (by norm_num) _
  have hle : (2 : ℚ) ^ (e - 52) ≤ |x| := by
    rcases le_total (Int.log 2 |x|) (-1022) with h | h
    · rw [max_eq_right h] at hE
      rw [← hE]
      exact habs
    · rw [max_eq_left h] at hE
      rw [← hE]
      calc (2 : ℚ) ^ (Int.log 2 |x| - 52) ≤ (2 : ℚ) ^ (Int.log 2 |x|) :=
            zpow_le_zpow_right₀ (by norm_num) (by omega)
        _ ≤ |x| := by
            have := Int.zpow_log_le_self (b := 2) (by norm_num) hpos
            simpa using this
  have hy : 1 ≤ |x| / (2 : ℚ) ^ (e - 52) := by
    rw [le_div_iff₀ hq]; linarith
  have hn := roundHalfEven_pos _ hy
  have hn2 : (1 : ℚ) ≤ (roundHalfEven (|x| / (2 : ℚ) ^ (e - 52)) : ℚ) := by exact_mod_cast hn
  nlinarith

theorem isDouble_sub_le (a b : ℚ) (ha : isDouble a = true) (hb : isDouble b = true)
    (hlt : a < b) : a - b ≤ -(2 : ℚ) ^ (-1074 : Int) := by
  have hu : (0 : ℚ) < (2 : ℚ) ^ (-1074 : Int) := zpow_pos (by norm_num) _
  simp only [isDouble, Bool.and_eq_true, decide_eq_true_eq] at ha hb
  obtain ⟨ma, hma⟩ := roundDouble_grid a
  obtain ⟨mb, hmb⟩ := roundDouble_grid b
  rw [ha.1] at hma
  rw [hb.1] at hmb
  have hm : ma < mb := by
    by_contra hcon
    have : (mb : ℚ) ≤ ma := by exact_mod_cast not_lt.mp hcon
    have := mul_le_mul_of_nonneg_right this hu.le
    linarith
  have hm2 : (ma : ℚ) + 1 ≤ mb := by exact_mod_cast hm
  have := mul_le_mul_of_nonneg_right hm2 hu.le
  rw [hma, hmb]
  linarith

theorem roundDouble_intCast (m : Int) (hm : m.natAbs < 2 ^ 53) : roundDouble (m : ℚ) = m := by
  by_cases h0 : m = 0
  · simp [roundDouble, h0]
  · have hx0 : (m : ℚ) ≠ 0 := by exact_mod_cast h0
    have habs : |(m : ℚ)| = ((m.natAbs : Nat) : ℚ) := by
      rw [Nat.cast_natAbs, Int.cast_abs]
    have hlog : Int.log 2 |(m : ℚ)| = (Nat.log 2 m.natAbs : Int) := by
      rw [habs, Int.log_natCast]
    have hL : Nat.log 2 m.natAbs < 53 :=
      Nat.log_lt_of_lt_pow (by omega) hm
    obtain ⟨j, hj⟩ : ∃ j : Nat, (Nat.log 2 m.natAbs : Int) - 52 = -(j : Int) :=
      ⟨52 - Nat.log 2 m.natAbs, by omega⟩
    have hmax : max (Nat.log 2 m.natAbs : Int) (-1022) = (Nat.log 2 m.natAbs : Int) :=
      max_eq_left (by omega)
    simp only [roundDouble, hx0, if_false, hlog, hmax, hj]
    have hq : (2 : ℚ) ^ (-(j : Int)) = ((2 : ℚ) ^ j)⁻¹ := by
      rw [zpow_neg, zpow_natCast]
    have hp : (0 : ℚ) < (2 : ℚ) ^ j := pow_pos (by norm_num) _
    rw [hq, habs]
    have hd : ((m.natAbs : Nat) : ℚ) / ((2 : ℚ) ^ j)⁻¹ = (((m.natAbs * 2 ^ j : Nat) : Int) : ℚ) := by
      rw [div_inv_eq_mul]; push_cast; rw [habs]
    rw [hd, roundHalfEven_intCast]
    push_cast
    split_ifs with hneg
    · rw [abs_of_neg hneg]; field_simp
    · rw [abs_of_nonneg (not_lt.mp hneg)]; field_simp

theorem isDouble_intCast (m : Int) (hm : m.natAbs < 2 ^ 53) : isDouble (m : ℚ) = true := by
  have h1 := roundDouble_intCast m hm
  have h2 : |(m : ℚ)| < (2 : ℚ) ^ 1024 := by
    rw [← Int.cast_abs, Int.abs_eq_natAbs]
    have h3 : ((m.natAbs : Int) : ℚ) < (2 : ℚ) ^ 53 := by exact_mod_cast hm
    have h4 : (2 : ℚ) ^ 53 ≤ (2 : ℚ) ^ 1024 := pow_le_pow_right₀ (by norm_num) (by norm_num)
    exact lt_of_lt_of_le h3 h4
  simp only [isDouble, h1, h2, decide_True, Bool.and_self]

theorem log_two_eq (x : ℚ) (e : Int) (h1 : (2 : ℚ) ^ e ≤ x) (h2 : x < (2 : ℚ) ^ (e + 1)) :
    Int.log 2 x = e := by
  have hx : 0 < x := lt_of_lt_of_le (zpow_pos (by norm_num) _) h1
  have h3 : e ≤ Int.log 2 x :=
    (Int.zpow_le_iff_le_log (b := 2) (by norm_num) hx).mp (by simpa using h1)
  have h4 : Int.log 2 x < e + 1 :=
    (Int.lt_zpow_iff_log_lt (b := 2) (by norm_num) hx).mp (by simpa using h2)
  omega

theorem roundDouble_of_pos (x : ℚ) (e : Int) (he : -1022 ≤ e)
    (h1 : (2 : ℚ) ^ e ≤ x) (h2 : x < (2 : ℚ) ^ (e + 1)) :
    roundDouble x = (roundHalfEven (x / (2 : ℚ) ^ (e - 52)) : ℚ) * (2 : ℚ) ^ (e - 52) := by
  have hx : 0 < x := lt_of_lt_of_le (zpow_pos (by norm_num) _) h1
  have hx0 : x ≠ 0 := ne_of_gt hx
  have hneg : ¬ x < 0 := not_lt.mpr hx.le
  have hlog : Int.log 2 x = e := log_two_eq x e h1 h2
  simp only [roundDouble, hx0, hneg, if_false, abs_of_pos hx, hlog, max_eq_left he, one_mul]

theorem saldoDevedorTexto_some (g : ℚ → String) (a : Aluguel) (x : ℚ)
    (h : saldoDevedor (some a) = some x) :
    saldoDevedorTexto g (some a) = if toFixed g x 2 = "" then "0.00" else toFixed g x 2 := by
  unfold saldoDevedorTexto
  dsimp only
  rw [h]

theorem saldoDevedorTexto_none (g : ℚ → String) (a : Aluguel)
    (h : saldoDevedor (some a) = none) :
    saldoDevedorTexto g (some a) =
      if a.valor_aluguel - orZero a.valor_pago < 0 then "-Infinity" else "Infinity" := by
  unfold saldoDevedorTexto
  dsimp only
  rw [h]

/-- C6: for every loaded contract the balance under "Saldo Devedor" is the
JavaScript difference `valor_aluguel - valor_pago` (a missing or zero
`valor_pago` counting as 0), that is the exact difference rounded to the nearest
double, and it is never clamped: when it is finite and below `10^21` in
magnitude the displayed text is its `toFixed(2)`; when `valor_pago` exceeds
`valor_aluguel` the balance is negative, the text begins with a minus sign, and
an overflowing difference is shown as "-Infinity". -/
theorem saldoDevedor_unclamped (g : ℚ → String) (a : Aluguel) :
    saldoDevedor (some a) = doubleSub a.valor_aluguel (a.valor_pago.getD 0) ∧
    (∀ x, saldoDevedor (some a) = some x →
      x = roundDouble (a.valor_aluguel - a.valor_pago.getD 0) ∧
      (|x| < (10 : ℚ) ^ 21 → saldoDevedorTexto g (some a) = toFixed g x 2)) ∧
    (∀ pago, a.valor_pago = some pago → isDouble a.valor_aluguel = true →
      isDouble pago = true → a.valor_aluguel < pago →
      roundDouble (a.valor_aluguel - pago) < 0 ∧
      (∀ x, saldoDevedor (some a) = some x →
        x < 0 ∧
        saldoDevedorTexto g (some a) = String.mk ('-' :: (toFixed g (-x) 2).data)) ∧
      (saldoDevedor (some a) = none → saldoDevedorTexto g (some a) = "-Infinity")) := by
  have hs : saldoDevedor (some a) = doubleSub a.valor_aluguel (a.valor_pago.getD 0) := by
    simp only [saldoDevedor, orZero_eq_getD]
  have hround : ∀ x, saldoDevedor (some a) = some x →
      x = roundDouble (a.valor_aluguel - a.valor_pago.getD 0) := by
    intro x hx
    rw [hs] at hx
    simp only [doubleSub] at hx
    split_ifs at hx
    exact (Option.some.inj hx).symm
  refine ⟨hs, ?_, ?_⟩
  · intro x hx
    refine ⟨hround x hx, ?_⟩
    intro hlt
    have hne := toFixed_two_ne_empty g x hlt
    rw [saldoDevedorTexto_some g a x hx, if_neg hne]
  · intro pago hp ha hb hlt
    have hneg : roundDouble (a.valor_aluguel - pago) < 0 :=
      roundDouble_neg_of_le _ (isDouble_sub_le _ _ ha hb hlt)
    refine ⟨hneg, ?_, ?_⟩
    · intro x hx
      have hxr := hround x hx
      rw [hp, Option.getD_some] at hxr
      have hx0 : x < 0 := by rw [hxr]; exact hneg
      refine ⟨hx0, ?_⟩
      have ht := toFixed_neg g x 2 hx0
      have hne : toFixed g x 2 ≠ "" := by
        rw [ht]; intro h; exact absurd (congrArg String.data h) (by simp)
      rw [saldoDevedorTexto_some g a x hx, if_neg hne]
      exact ht
    · intro hnone
      have hd : a.valor_aluguel - orZero a.valor_pago < 0 := by
        rw [orZero_eq_getD, hp, Option.getD_some]; linarith
      rw [saldoDevedorTexto_none g a hnone, if_pos hd]

/-- Witness of C6: agreed price 100 with 150 paid gives the balance `-50`,
displayed as "-50.00". -/
theorem saldoDevedor_unclamped_witness :
    saldoDevedor (some ⟨"a1", "v1", "ativo", some 0, 100, some 150, none, none⟩) = some (-50) ∧
    saldoDevedorTexto (fun _ => "1e+21")
      (some ⟨"a1", "v1", "ativo", some 0, 100, some 150, none, none⟩) = "-50.00" := by
  obtain ⟨h1, _, h3⟩ := saldoDevedor_unclamped (fun _ => "1e+21")
    ⟨"a1", "v1", "ativo", some 0, 100, some 150, none, none⟩
  have d100 : isDouble (100 : ℚ) = true := by
    have h := isDouble_intCast 100 (by decide)
    simpa using h
  have d150 : isDouble (150 : ℚ) = true := by
    have h := isDouble_intCast 150 (by decide)
    simpa using h
  have r50 : roundDouble ((100 : ℚ) - 150) = -50 := by
    have h := roundDouble_intCast (-50) (by decide)
    have e : ((100 : ℚ) - 150) = ((-50 : Int) : ℚ) := by norm_num
    rw [e, h]
    norm_num
  have hover : ¬ ((2 : ℚ) ^ 1024 ≤ |(-50 : ℚ)|) := by
    rw [abs_of_neg (by norm_num)]
    norm_num
  have hs : saldoDevedor (some ⟨"a1", "v1", "ativo", some 0, 100, some 150, none, none⟩)
      = some (-50) := by
    rw [h1]
    dsimp only [Option.getD_some]
    simp only [doubleSub, r50, hover, if_false]
  obtain ⟨_, h5, _⟩ := h3 150 rfl d100 d150 (by norm_num)
  obtain ⟨_, ht⟩ := h5 (-50) hs
  have h1 : ¬ ((50 : ℚ) < 0) := by norm_num
  have h3 : ¬ ((10 : ℚ) ^ 21 ≤ 50) := by norm_num
  have h4 : (Int.floor ((50 : ℚ) * (10 : ℚ) ^ 2 + 1 / 2)).toNat = 5000 := by
    norm_num
    rfl
  have h5 : toFixed (fun _ => "1e+21") 50 2 = "50.00" := by
    simp only [toFixed, h1, h3, h4, if_false]
    decide
  rw [neg_neg, h5] at ht
  exact ⟨hs, ht⟩

/-- The rounding of the subtraction is visible in the displayed text: for the
doubles nearest to 50.03 and 0.005 the exact difference lies above 50.025, the
double difference `50.02499999999999857...` lies below it, and the text is
"50.02". -/
theorem saldoDevedorTexto_rounded_difference (g : ℚ → String) :
    saldoDevedor (some ⟨"a1", "v1", "ativo", some 0, 1760274135604265 / 35184372088832,
      some (5764607523034235 / 1152921504606846976), none, none⟩)
        = some (7040392854975283 / 140737488355328) ∧
    saldoDevedorTexto g (some ⟨"a1", "v1", "ativo", some 0, 1760274135604265 / 35184372088832,
      some (5764607523034235 / 1152921504606846976), none, none⟩) = "50.02" := by
  have hx : (1760274135604265 / 35184372088832 : ℚ)
      - 5764607523034235 / 1152921504606846976
      = 57674898267957521285 / 1152921504606846976 := by norm_num
  have hq : (2 : ℚ) ^ ((5 : Int) - 52) = 1 / 140737488355328 := by
    have h47 : ((5 : Int) - 52) = -((47 : Nat) : Int) := by norm_num
    rw [h47, zpow_neg, zpow_natCast]
    norm_num
  have hr := roundDouble_of_pos (57674898267957521285 / 1152921504606846976) 5 (by norm_num)
    (by norm_num) (by norm_num)
  have hn : roundHalfEven ((57674898267957521285 / 1152921504606846976 : ℚ)
      / (1 / 140737488355328)) = 7040392854975283 := by
    have hf : Int.floor ((57674898267957521285 / 1152921504606846976 : ℚ)
        / (1 / 140737488355328)) = 7040392854975283 := by
      rw [Int.floor_eq_iff]
      constructor <;> norm_num
    simp only [roundHalfEven, hf]
    norm_num
  rw [hq, hn] at hr
  have hr2 : roundDouble (57674898267957521285 / 1152921504606846976)
      = 7040392854975283 / 140737488355328 := by
    rw [hr]; norm_num
  have hover : ¬ ((2 : ℚ) ^ 1024 ≤ |(7040392854975283 / 140737488355328 : ℚ)|) := by
    rw [abs_of_pos (by norm_num)]
    norm_num
  have hs : saldoDevedor (some ⟨"a1", "v1", "ativo", some 0, 1760274135604265 / 35184372088832,
      some (5764607523034235 / 1152921504606846976), none, none⟩)
        = some (7040392854975283 / 140737488355328) := by
    simp only [saldoDevedor, orZero_eq_getD, Option.getD_some, doubleSub, hx, hr2, hover,
      if_false]
  refine ⟨hs, ?_⟩
  have h1 : ¬ ((7040392854975283 / 140737488355328 : ℚ) < 0) := by norm_num
  have h3 : ¬ ((10 : ℚ) ^ 21 ≤ 7040392854975283 / 140737488355328) := by norm_num
  have h4 : (Int.floor ((7040392854975283 / 140737488355328 : ℚ) * (10 : ℚ) ^ 2 + 1 / 2)).toNat
      = 5002 := by
    have hf : Int.floor ((7040392854975283 / 140737488355328 : ℚ) * (10 : ℚ) ^ 2 + 1 / 2)
        = 5002 := by
      rw [Int.floor_eq_iff]
      constructor <;> norm_num
    rw [hf]
    rfl
  have h5 : toFixed g (7040392854975283 / 140737488355328) 2 = "50.02" := by
    simp only [toFixed, h1, h3, h4, if_false]
    decide
  rw [saldoDevedorTexto_some g _ _ hs, h5]
  decide

/-- C7: once the amount paid equals the agreed price, which is the value that
`handleQuitarPagamento` submits for the loaded contract, the balance computed
by the detail view is exactly zero and is displayed as "0.00". -/
theorem saldoDevedor_zero_after_quitar (g : ℚ → String) (s : DetalhesState)
    (loaded reloaded : Aluguel) (body : AluguelUpdate)
    (hloaded : s.aluguel = some loaded)
    (hbody : handleQuitarPagamento s = some body)
    (hprice : reloaded.valor_aluguel = loaded.valor_aluguel)
    (hpaid : reloaded.valor_pago = body.valor_pago) :
    body.valor_pago = some loaded.valor_aluguel ∧
    saldoDevedor (some reloaded) = some 0 ∧
    saldoDevedorTexto g (some reloaded) = "0.00" := by
  have hb : body.valor_pago = some loaded.valor_aluguel := by
    simp only [handleQuitarPagamento, hloaded, Option.some.injEq] at hbody
    rw [← hbody]
  have hr : roundDouble 0 = 0 := by simp only [roundDouble, if_true]
  have hover : ¬ ((2 : ℚ) ^ 1024 ≤ |(0 : ℚ)|) := by
    rw [abs_zero]
    exact not_le.mpr (pow_pos (by norm_num) _)
  have hz : saldoDevedor (some reloaded) = some 0 := by
    simp only [saldoDevedor, orZero_eq_getD, hpaid, hb, hprice, Option.getD_some, sub_self,
      doubleSub, hr, hover, if_false]
  refine ⟨hb, hz, ?_⟩
  rw [saldoDevedorTexto_some g reloaded 0 hz, toFixed_zero_two]
  decide

/-- Witness of C7: a contract of 200 with 50 paid, reloaded after the
settle-in-full request with 200 paid. -/
theorem saldoDevedor_zero_after_quitar_witness :
    (⟨none, none, some 200, none⟩ : AluguelUpdate).valor_pago = some 200 ∧
    saldoDevedor (some ⟨"a1", "v1", "ativo", some 0, 200, some 200, none, none⟩) = some 0 ∧
    saldoDevedorTexto (fun _ => "1e+21")
      (some ⟨"a1", "v1", "ativo", some 0, 200, some 200, none, none⟩) = "0.00" :=
  saldoDevedor_zero_after_quitar (fun _ => "1e+21")
    (fetchAluguel ⟨"a1", "v1", "ativo", some 0, 200, some 50, none, none⟩)
    ⟨"a1", "v1", "ativo", some 0, 200, some 50, none, none⟩
    ⟨"a1", "v1", "ativo", some 0, 200, some 200, none, none⟩
    ⟨none, none, some 200, none⟩ rfl rfl rfl rfl

/-- C8: for a loaded contract the settle-payment-in-full action submits a body
whose only field is `valor_pago`, equal to the contract's `valor_aluguel`; it has
no `status`, `avarias` or `observacoes` field, whatever status is selected
locally, and applying it as a sparse update leaves the stored status unchanged. -/
theorem handleQuitarPagamento_only_valor_pago (s : DetalhesState) (loaded stored : Aluguel)
    (localStatus : String) (hloaded : s.aluguel = some loaded) :
    handleQuitarPagamento { s with status := localStatus } =
      some { status := none, avarias := none, valor_pago := some loaded.valor_aluguel,
             observacoes := none } ∧
    ∀ body, handleQuitarPagamento { s with status := localStatus } = some body →
      (updateContract stored body).status = stored.status := by
  have h : handleQuitarPagamento { s with status := localStatus } =
      some { status := none, avarias := none, valor_pago := some loaded.valor_aluguel,
             observacoes := none } := by
    simp only [handleQuitarPagamento, hloaded]
  refine ⟨h, ?_⟩
  intro body hbody
  rw [h, Option.some.injEq] at hbody
  rw [← hbody]
  rfl

/-- Witness of C8: the detail view of an active contract of 200 with 50 paid,
the operator having selected 'finalizado' locally without saving. -/
theorem handleQuitarPagamento_only_valor_pago_witness :
    handleQuitarPagamento
      { fetchAluguel ⟨"a1", "v1", "ativo", some 0, 200, some 50, none, none⟩ with
        status := "finalizado" } =
      some { status := none, avarias := none, valor_pago := some 200, observacoes := none } ∧
    ∀ body, handleQuitarPagamento
      { fetchAluguel ⟨"a1", "v1", "ativo", some 0, 200, some 50, none, none⟩ with
        status := "finalizado" } = some body →
      (updateContract ⟨"a1", "v1", "ativo", some 0, 200, some 50, none, none⟩ body).status
        = "ativo" :=
  handleQuitarPagamento_only_valor_pago
    (fetchAluguel ⟨"a1", "v1", "ativo", some 0, 200, some 50, none, none⟩)
    ⟨"a1", "v1", "ativo", some 0, 200, some 50, none, none⟩
    ⟨"a1", "v1", "ativo", some 0, 200, some 50, none, none⟩ "finalizado" rfl

/-! ## The refresh counter -/

theorem onmessage_update (parsed : Option JsonValue) (v : Nat)
    (h : IsUpdateMessage parsed) : onmessage parsed v = v + 1 := by
  obtain ⟨data, rfl, hd⟩ := h
  have ht : typeIsUpdate (data.member "type") = true := by
    rw [hd]; simp [typeIsUpdate]
  cases data with
  | null => simp [JsonValue.member] at hd
  | _ => simp only [onmessage, ht, if_true]

theorem onmessage_other (parsed : Option JsonValue) (v : Nat)
    (h : ¬ IsUpdateMessage parsed) : onmessage parsed v = v := by
  cases parsed with
  | none => rfl
  | some data =>
    have hne : data.member "type" ≠ some (JsonValue.str "update") :=
      fun hd => h ⟨data, rfl, hd⟩
    have hf : typeIsUpdate (data.member "type") = false := by
      cases hm : data.member "type" with
      | none => rfl
      | some t =>
        cases t <;> simp_all [typeIsUpdate]
    cases data <;> simp_all [onmessage]

theorem authRun_append (s : AuthState) (xs ys : List AuthEvent) :
    authRun s (xs ++ ys) = authRun (authRun s xs) ys := by
  simp [authRun, List.foldl_append]

theorem le_onmessage (parsed : Option JsonValue) (v : Nat) : v ≤ onmessage parsed v := by
  unfold onmessage
  split
  · exact le_refl v
  · exact le_refl v
  · split_ifs
    · exact Nat.le_succ v
    · exact le_refl v

theorem effectCleanup_refreshVersion (s : AuthState) :
    (effectCleanup s).refreshVersion = s.refreshVersion := by
  unfold effectCleanup
  split <;> rfl

theorem effectRun_refreshVersion (s : AuthState) :
    (effectRun s).refreshVersion = s.refreshVersion := by
  unfold effectRun
  split
  · rfl
  · split_ifs <;> rfl

theorem setToken_refreshVersion (tok : Option String) (s : AuthState) :
    (setToken tok s).refreshVersion = s.refreshVersion := by
  unfold setToken
  split_ifs
  · rfl
  · rw [effectRun_refreshVersion, effectCleanup_refreshVersion]

theorem authStep_refreshVersion_le (s : AuthState) (e : AuthEvent) :
    s.refreshVersion ≤ (authStep s e).refreshVersion := by
  cases e with
  | message i parsed =>
    simp only [authStep]
    split
    · split_ifs
      · exact le_onmessage parsed s.refreshVersion
      · exact le_refl _
    · exact le_refl _
  | close i =>
    simp only [authStep]
    split <;> exact le_refl _
  | advance dt => exact le_refl _
  | timerFire j =>
    simp only [authStep]
    split
    · split_ifs
      · exact Nat.le_succ _
      · exact le_refl _
      · exact le_refl _
    · exact le_refl _
  | login tok =>
    simp only [authStep]
    split_ifs
    · rw [setToken_refreshVersion]
    · exact le_refl _
  | logout =>
    simp only [authStep]
    split_ifs
    · rw [setToken_refreshVersion]
    · exact le_refl _
  | unmount =>
    simp only [authStep]
    split_ifs
    · exact le_of_eq (effectCleanup_refreshVersion s).symm
    · exact le_refl _

theorem authRun_refreshVersion_le (s : AuthState) (events : List AuthEvent) :
    s.refreshVersion ≤ (authRun s events).refreshVersion := by
  induction events generalizing s with
  | nil => exact le_refl _
  | cons e rest ih =>
    exact le_trans (authStep_refreshVersion_le s e) (ih (authStep s e))

theorem authStep_message_opened (s : AuthState) (i : Nat) (parsed : Option JsonValue)
    (hopen : s.sockets.get? i = some ReadyState.opened) (hm : s.mounted = true) :
    authStep s (AuthEvent.message i parsed) =
      { s with refreshVersion := onmessage parsed s.refreshVersion } := by
  simp only [authStep, hopen, hm, if_true]

/-- C9: on an open socket of a mounted provider every received message with
type 'update' increases `refreshVersion` by exactly 1, so from any value `g`
a sequence of `n` update notifications leads to `g + n` (two give `g + 2`); a
received message whose type is not 'update' leaves the counter unchanged. -/
theorem refreshVersion_counts_updates (s : AuthState) (i : Nat)
    (hopen : s.sockets.get? i = some ReadyState.opened) (hm : s.mounted = true) :
    (∀ parsed, IsUpdateMessage parsed →
      (authStep s (AuthEvent.message i parsed)).refreshVersion = s.refreshVersion + 1) ∧
    (∀ msgs : List (Option JsonValue), (∀ m ∈ msgs, IsUpdateMessage m) →
      (authRun s (msgs.map (AuthEvent.message i))).refreshVersion
        = s.refreshVersion + msgs.length) ∧
    (∀ m1 m2, IsUpdateMessage m1 → IsUpdateMessage m2 →
      (authRun s [AuthEvent.message i m1, AuthEvent.message i m2]).refreshVersion
        = s.refreshVersion + 2) ∧
    (∀ parsed, ¬ IsUpdateMessage parsed →
      (authStep s (AuthEvent.message i parsed)).refreshVersion = s.refreshVersion) := by
  have hseq : ∀ (msgs : List (Option JsonValue)) (t : AuthState),
      t.sockets.get? i = some ReadyState.opened → t.mounted = true →
      (∀ m ∈ msgs, IsUpdateMessage m) →
      (authRun t (msgs.map (AuthEvent.message i))).refreshVersion
        = t.refreshVersion + msgs.length := by
    intro msgs
    induction msgs with
    | nil => intro t _ _ _; rfl
    | cons m rest ih =>
      intro t ho hmt hall
      have hm1 : IsUpdateMessage m := hall m (List.mem_cons_self _ _)
      have hrest : ∀ x ∈ rest, IsUpdateMessage x :=
        fun x hx => hall x (List.mem_cons_of_mem _ hx)
      have hstep := authStep_message_opened t i m ho hmt
      have h1 : authRun t ((m :: rest).map (AuthEvent.message i)) =
          authRun (authStep t (AuthEvent.message i m)) (rest.map (AuthEvent.message i)) := rfl
      have hih := ih { t with refreshVersion := onmessage m t.refreshVersion } ho hmt hrest
      rw [h1, hstep, hih]
      simp only [onmessage_update m t.refreshVersion hm1, List.length_cons]
      omega
  refine ⟨?_, ?_, ?_, ?_⟩
  · intro parsed hp
    rw [authStep_message_opened s i parsed hopen hm]
    exact onmessage_update parsed s.refreshVersion hp
  · intro msgs hall
    exact hseq msgs s hopen hm hall
  · intro m1 m2 h1 h2
    have := hseq [m1, m2] s hopen hm (by
      intro m hmem
      simp only [List.mem_cons, List.mem_singleton, List.not_mem_nil, or_false] at hmem
      rcases hmem with rfl | rfl
      · exact h1
      · exact h2)
    simpa using this
  · intro parsed hp
    rw [authStep_message_opened s i parsed hopen hm]
    exact onmessage_other parsed s.refreshVersion hp

/-- Witness of C9: a provider mounted with a stored token receives two
`{"type": "update"}` messages on its socket and the counter goes from 0 to 2. -/
theorem refreshVersion_counts_updates_witness :
    (authRun (authInit (some "tok") 0)
      [AuthEvent.message 0 (some (JsonValue.obj [("type", JsonValue.str "update")])),
       AuthEvent.message 0 (some (JsonValue.obj [("type", JsonValue.str "update")]))]
      ).refreshVersion = 0 + 2 :=
  (refreshVersion_counts_updates (authInit (some "tok") 0) 0 rfl rfl).2.2.1
    (some (JsonValue.obj [("type", JsonValue.str "update")]))
    (some (JsonValue.obj [("type", JsonValue.str "update")]))
    ⟨_, rfl, rfl⟩ ⟨_, rfl, rfl⟩

/-- C10: the counter starts at 0 and is monotonically non-decreasing: no event
of the `AuthProvider` state machine (message, channel close, passage of time,
retry timer firing, login, logout, unmount) decreases or resets it, and along
every sequence of events each later value is at least each earlier one. -/
theorem refreshVersion_monotone :
    (∀ storedToken clock, (authInit storedToken clock).refreshVersion = 0) ∧
    (∀ s e, s.refreshVersion ≤ (authStep s e).refreshVersion) ∧
    (∀ storedToken clock (earlier later : List AuthEvent),
      (authRun (authInit storedToken clock) earlier).refreshVersion ≤
        (authRun (authInit storedToken clock) (earlier ++ later)).refreshVersion) := by
  refine ⟨?_, authStep_refreshVersion_le, ?_⟩
  · intro storedToken clock
    simp only [authInit, effectRun_refreshVersion]
  · intro storedToken clock earlier later
    rw [authRun_append]
    exact authRun_refreshVersion_le _ later

/-! ## Closure of the channel -/

theorem timers_get_last (timers : List Nat) (due : Nat) :
    (timers ++ [due]).get? timers.length = some due := by
  simp [List.get?_eq_getElem?]

theorem timers_erase_last (timers : List Nat) (due : Nat) :
    (timers ++ [due]).eraseIdx timers.length = timers := by
  induction timers with
  | nil => rfl
  | cons t rest ih => simp only [List.cons_append, List.length_cons, List.eraseIdx_cons_succ, ih]

theorem authStep_close_live (s : AuthState) (i : Nat)
    (hsock : s.sockets.get? i = some ReadyState.opened ∨
      s.sockets.get? i = some ReadyState.closing) :
    authStep s (AuthEvent.close i) =
      { s with sockets := s.sockets.set i ReadyState.closed
               timers := s.timers ++ [s.clock + 3000] } := by
  rcases hsock with h | h <;> simp only [authStep, h, onclose]

theorem effectCleanup_sockets_length (s : AuthState) :
    (effectCleanup s).sockets.length = s.sockets.length := by
  unfold effectCleanup
  split
  · rfl
  · dsimp only
    split <;> simp

theorem effectCleanup_token (s : AuthState) : (effectCleanup s).token = s.token := by
  unfold effectCleanup
  split <;> rfl

theorem effectRun_token_none (s : AuthState) (h : s.token = none) :
    (effectRun s).sockets.length = s.sockets.length := by
  simp only [effectRun, h]

/-- C11 (evaluation of the code): after an unexpected closure the handler
schedules one timeout of 3000 ms whose callback only increments the counter;
no event other than a login creates a socket, and after the closure, the delay
and the timeout the only socket is closed and nothing is pending: the channel
is never re-opened. -/
theorem close_never_reopens :
    (∀ s e, (authStep s e).sockets.length = s.sockets.length ∨ e.isLogin = true) ∧
    (∀ s j, (authStep s (AuthEvent.timerFire j)).sockets = s.sockets) ∧
    (authRun (authInit (some "tok") 0) [AuthEvent.close 0]).timers = [3000] ∧
    (authRun (authInit (some "tok") 0)
      [AuthEvent.close 0, AuthEvent.advance 3000, AuthEvent.timerFire 0]).sockets
        = [ReadyState.closed] ∧
    (authRun (authInit (some "tok") 0)
      [AuthEvent.close 0, AuthEvent.advance 3000, AuthEvent.timerFire 0]).timers = [] ∧
    (authRun (authInit (some "tok") 0)
      [AuthEvent.close 0, AuthEvent.advance 3000, AuthEvent.timerFire 0]).refreshVersion
        = 1 := by
  refine ⟨?_, ?_, by decide, by decide, by decide, by decide⟩
  · intro s e
    cases e with
    | login tok => exact Or.inr rfl
    | message i parsed =>
      left
      simp only [authStep]
      split
      · split_ifs <;> rfl
      · rfl
    | close i =>
      left
      simp only [authStep]
      split <;> simp [onclose]
    | advance dt => exact Or.inl rfl
    | timerFire j =>
      left
      simp only [authStep]
      split
      · split_ifs <;> rfl
      · rfl
    | logout =>
      left
      simp only [authStep]
      split_ifs
      · simp only [setToken]
        split_ifs
        · rfl
        · rw [effectRun_token_none _ (by rw [effectCleanup_token])]
          exact effectCleanup_sockets_length _
      · rfl
    | unmount =>
      left
      simp only [authStep]
      split_ifs
      · exact effectCleanup_sockets_length s
      · rfl
  · intro s j
    simp only [authStep]
    split
    · split_ifs <;> rfl
    · rfl

/-- C12: a close event of a socket schedules exactly one timeout, due 3000 ms
after the event, and does not touch the counter; that timeout cannot run before
its delay has elapsed, and when it runs (in a mounted provider) the counter
increases by exactly 1 and the timeout is gone. -/
theorem close_schedules_one_timer (s : AuthState) (i : Nat)
    (hsock : s.sockets.get? i = some ReadyState.opened ∨
      s.sockets.get? i = some ReadyState.closing) :
    (authStep s (AuthEvent.close i)).timers = s.timers ++ [s.clock + 3000] ∧
    (authStep s (AuthEvent.close i)).refreshVersion = s.refreshVersion ∧
    (∀ dt, dt < 3000 →
      authStep (authStep (authStep s (AuthEvent.close i)) (AuthEvent.advance dt))
          (AuthEvent.timerFire s.timers.length)
        = authStep (authStep s (AuthEvent.close i)) (AuthEvent.advance dt)) ∧
    (∀ dt, 3000 ≤ dt → s.mounted = true →
      (authStep (authStep (authStep s (AuthEvent.close i)) (AuthEvent.advance dt))
          (AuthEvent.timerFire s.timers.length)).refreshVersion = s.refreshVersion + 1 ∧
      (authStep (authStep (authStep s (AuthEvent.close i)) (AuthEvent.advance dt))
          (AuthEvent.timerFire s.timers.length)).timers = s.timers) := by
  rw [authStep_close_live s i hsock]
  refine ⟨rfl, rfl, ?_, ?_⟩
  · intro dt hdt
    have hnot : ¬ (s.clock + 3000 ≤ s.clock + dt) := by omega
    simp only [authStep, timers_get_last, hnot, if_false]
  · intro dt hdt hm
    have hle : s.clock + 3000 ≤ s.clock + dt := by omega
    simp only [authStep, timers_get_last, hle, if_true, hm, timers_erase_last, and_self]

/-- Witness of C12: the socket of a freshly mounted provider closes at time 0;
one timeout due at 3000 is pending, it does nothing at time 2999 and increments
the counter from 0 to 1 at time 3000. -/
theorem close_schedules_one_timer_witness :
    (authStep (authInit (some "tok") 0) (AuthEvent.close 0)).timers = [] ++ [0 + 3000] ∧
    (authStep (authStep (authStep (authInit (some "tok") 0) (AuthEvent.close 0))
        (AuthEvent.advance 2999)) (AuthEvent.timerFire 0)).refreshVersion = 0 ∧
    (authStep (authStep (authStep (authInit (some "tok") 0) (AuthEvent.close 0))
        (AuthEvent.advance 3000)) (AuthEvent.timerFire 0)).refreshVersion = 0 + 1 := by
  have h := close_schedules_one_timer (authInit (some "tok") 0) 0 (Or.inl rfl)
  refine ⟨h.1, ?_, (h.2.2.2 3000 (le_refl _) rfl).1⟩
  have h2 := h.2.2.1 2999 (by decide)
  exact (congrArg AuthState.refreshVersion h2).trans rfl

/-- C13 (counterexample): a provider mounted with a token logs out, or is
unmounted; the cleanup closes its socket, the close event follows and the
handler schedules a timeout due 3000 ms later, which after a logout still
increments the counter. -/
theorem teardown_close_schedules_timer :
    (authRun (authInit (some "tok") 0) [AuthEvent.logout]).sockets = [ReadyState.closing] ∧
    (authRun (authInit (some "tok") 0) [AuthEvent.logout, AuthEvent.close 0]).timers
      = [3000] ∧
    (authRun (authInit (some "tok") 0) [AuthEvent.unmount, AuthEvent.close 0]).timers
      = [3000] ∧
    (authRun (authInit (some "tok") 0)
      [AuthEvent.logout, AuthEvent.close 0, AuthEvent.advance 3000,
       AuthEvent.timerFire 0]).refreshVersion = 1 := by
  refine ⟨by decide, by decide, by decide, by decide⟩

/-- C13 (amended): on an intentional teardown of a provider with a live channel
(logout, or unmount) the cleanup closes the channel, creates no socket and
schedules nothing by itself; the close event that follows runs the same
handler as any closure: it schedules exactly one timeout, due 3000 ms later,
and creates no socket either. -/
theorem teardown_closes_then_one_timer (s : AuthState) (i : Nat) (e : AuthEvent)
    (hm : s.mounted = true) (hcur : s.current = some i)
    (hopen : s.sockets.get? i = some ReadyState.opened) (htok : s.token ≠ none)
    (he : e = AuthEvent.logout ∨ e = AuthEvent.unmount) :
    (authStep s e).sockets = s.sockets.set i ReadyState.closing ∧
    (authStep s e).timers = s.timers ∧
    (authStep s e).current = none ∧
    (authStep (authStep s e) (AuthEvent.close i)).timers
      = s.timers ++ [(authStep s e).clock + 3000] ∧
    (authStep (authStep s e) (AuthEvent.close i)).sockets
      = s.sockets.set i ReadyState.closed := by
  have hlt : i < s.sockets.length := by
    rcases Nat.lt_or_ge i s.sockets.length with h | h
    · exact h
    · rw [List.get?_eq_none.mpr h] at hopen
      exact absurd hopen (by simp)
  have hclean : (effectCleanup s).sockets = s.sockets.set i ReadyState.closing := by
    simp only [effectCleanup, hcur, hopen, wsClose]
  have hcleanT : (effectCleanup s).timers = s.timers := by
    simp only [effectCleanup, hcur]
  have hcleanC : (effectCleanup s).current = none := by
    simp only [effectCleanup, hcur]
  have hget : (s.sockets.set i ReadyState.closing).get? i = some ReadyState.closing := by
    simp [List.get?_eq_getElem?, List.getElem?_set, hlt]
  have key : ∀ t : AuthState, t.sockets = s.sockets.set i ReadyState.closing →
      t.timers = s.timers →
      (authStep t (AuthEvent.close i)).timers = s.timers ++ [t.clock + 3000] ∧
      (authStep t (AuthEvent.close i)).sockets = s.sockets.set i ReadyState.closed := by
    intro t hs ht
    have hg : t.sockets.get? i = some ReadyState.closing := by rw [hs]; exact hget
    rw [authStep_close_live t i (Or.inr hg)]
    refine ⟨by simp only [ht], ?_⟩
    simp only [hs, List.set_set]
  rcases he with rfl | rfl
  · have hstep : authStep s AuthEvent.logout
        = effectRun (effectCleanup { s with token := none }) := by
      simp only [authStep, hm, if_true, setToken, htok, if_false]
    have hrun : effectRun (effectCleanup { s with token := none })
        = { effectCleanup { s with token := none } with current := none } := by
      simp only [effectRun, effectCleanup_token]
    have h1 : (authStep s AuthEvent.logout).sockets = s.sockets.set i ReadyState.closing := by
      rw [hstep, hrun]
      simp only [effectCleanup, hcur, hopen, wsClose]
    have h2 : (authStep s AuthEvent.logout).timers = s.timers := by
      rw [hstep, hrun]
      simp only [effectCleanup, hcur]
    have h3 : (authStep s AuthEvent.logout).current = none := by
      rw [hstep, hrun]
    exact ⟨h1, h2, h3, key _ h1 h2⟩
  · have hstep : authStep s AuthEvent.unmount = { effectCleanup s with mounted := false } := by
      simp only [authStep, hm, if_true]
    have h1 : (authStep s AuthEvent.unmount).sockets = s.sockets.set i ReadyState.closing := by
      rw [hstep]; exact hclean
    have h2 : (authStep s AuthEvent.unmount).timers = s.timers := by
      rw [hstep]; exact hcleanT
    have h3 : (authStep s AuthEvent.unmount).current = none := by
      rw [hstep]; exact hcleanC
    exact ⟨h1, h2, h3, key _ h1 h2⟩

/-- Witness of C13 (amended): the logout of a provider mounted with a token at
time 0. -/
theorem teardown_closes_then_one_timer_witness :
    (authStep (authInit (some "tok") 0) AuthEvent.logout).sockets
      = [ReadyState.opened].set 0 ReadyState.closing ∧
    (authStep (authInit (some "tok") 0) AuthEvent.logout).timers = [] ∧
    (authStep (authInit (some "tok") 0) AuthEvent.logout).current = none ∧
    (authStep (authStep (authInit (some "tok") 0) AuthEvent.logout) (AuthEvent.close 0)).timers
      = [] ++ [(authStep (authInit (some "tok") 0) AuthEvent.logout).clock + 3000] ∧
    (authStep (authStep (authInit (some "tok") 0) AuthEvent.logout) (AuthEvent.close 0)).sockets
      = [ReadyState.opened].set 0 ReadyState.closed :=
  teardown_closes_then_one_timer (authInit (some "tok") 0) 0 AuthEvent.logout rfl rfl rfl
    (by decide) (Or.inl rfl)

/-! ## Refetching on a change of the counter -/

/-- C14 (evaluation of the code): the fetch effects of Dashboard, Vestidos,
Alugueis, DetalhesAluguel and DetalhesVestido list `refreshVersion` and run
again whenever the counter changes; the fetch effect of NovoAluguel has the
empty dependency array, so it never runs again, whatever changes. -/
theorem novoAluguel_never_refetches :
    (∀ v, v ≠ View.novoAluguel → Dep.refreshVersion ∈ fetchEffectDeps v) ∧
    (∀ v previous next, v ≠ View.novoAluguel →
      previous.refreshVersion ≠ next.refreshVersion →
      effectReruns (fetchEffectDeps v) previous next = true) ∧
    Dep.refreshVersion ∉ fetchEffectDeps View.novoAluguel ∧
    (∀ previous next, effectReruns (fetchEffectDeps View.novoAluguel) previous next = false) ∧
    effectReruns (fetchEffectDeps View.novoAluguel) ⟨0, "", "", ""⟩ ⟨1, "", "", ""⟩ = false := by
  refine ⟨?_, ?_, by decide, fun _ _ => rfl, rfl⟩
  · intro v hv
    cases v <;> first | exact absurd rfl hv | decide
  · intro v previous next hv hne
    have hc : depChanged Dep.refreshVersion previous next = true := by
      simpa [depChanged] using hne
    cases v <;> first | exact absurd rfl hv | simp [fetchEffectDeps, effectReruns, hc]

/-- Witness of C14 (evaluation of the code): the list of rentals refetches when
the counter goes from 0 to 1, the new-rental form does not. -/
theorem novoAluguel_never_refetches_witness :
    effectReruns (fetchEffectDeps View.alugueis) ⟨0, "", "", ""⟩ ⟨1, "", "", ""⟩ = true ∧
    effectReruns (fetchEffectDeps View.novoAluguel) ⟨0, "", "", ""⟩ ⟨1, "", "", ""⟩ = false :=
  ⟨novoAluguel_never_refetches.2.1 View.alugueis ⟨0, "", "", ""⟩ ⟨1, "", "", ""⟩
      (by decide) (by decide),
    novoAluguel_never_refetches.2.2.2.1 ⟨0, "", "", ""⟩ ⟨1, "", "", ""⟩⟩

/-! ## Notifications carry no payload -/

theorem onmessage_some (data : JsonValue) (v : Nat) :
    onmessage (some data) v = if typeIsUpdate (data.member "type") then v + 1 else v := by
  cases data <;> simp [onmessage, JsonValue.member, typeIsUpdate]

/-- C15: two received messages that agree on the `type` property lead to the
same state of the provider, however they differ elsewhere; a message changes
nothing but the counter. -/
theorem message_payload_ignored (s : AuthState) (i : Nat) (d1 d2 : JsonValue)
    (htype : d1.member "type" = d2.member "type") :
    authStep s (AuthEvent.message i (some d1)) = authStep s (AuthEvent.message i (some d2)) ∧
    authStep s (AuthEvent.message i (some d1)) =
      { s with refreshVersion := (authStep s (AuthEvent.message i (some d1))).refreshVersion } := by
  have h : onmessage (some d1) s.refreshVersion = onmessage (some d2) s.refreshVersion := by
    rw [onmessage_some, onmessage_some, htype]
  constructor
  · simp only [authStep, h]
  · simp only [authStep]
    split
    · split_ifs <;> rfl
    · rfl

/-- Witness of C15: an update notification with an embedded contract and a bare
one. -/
theorem message_payload_ignored_witness :
    authStep (authInit (some "tok") 0) (AuthEvent.message 0 (some (JsonValue.obj
      [("type", JsonValue.str "update"), ("aluguel", JsonValue.obj
        [("status", JsonValue.str "finalizado")])])))
      = authStep (authInit (some "tok") 0) (AuthEvent.message 0 (some (JsonValue.obj
        [("type", JsonValue.str "update")]))) :=
  (message_payload_ignored (authInit (some "tok") 0) 0
    (JsonValue.obj [("type", JsonValue.str "update"), ("aluguel", JsonValue.obj
      [("status", JsonValue.str "finalizado")])])
    (JsonValue.obj [("type", JsonValue.str "update")]) rfl).1

/-! ## Query parameters -/

/-- C16: for every combination of the filters the parameters built by
`fetchVestidos` and `fetchAlugueis` have a key for a filter exactly when the
filter is non-empty, with the filter's value unchanged, and have no other key. -/
theorem fetch_params_exact (categoriaFilter statusFilter search : String) :
    fetchVestidosParams categoriaFilter statusFilter search =
      (["categoria", "status", "search"].zip [categoriaFilter, statusFilter, search]).filter
        (fun kv => decide (kv.2 ≠ "")) ∧
    fetchAlugueisParams statusFilter search =
      (["status", "search"].zip [statusFilter, search]).filter
        (fun kv => decide (kv.2 ≠ "")) ∧
    (∀ key value, (key, value) ∈ fetchVestidosParams categoriaFilter statusFilter search ↔
      value ≠ "" ∧ ((key = "categoria" ∧ value = categoriaFilter) ∨
        (key = "status" ∧ value = statusFilter) ∨ (key = "search" ∧ value = search))) ∧
    (∀ key value, (key, value) ∈ fetchAlugueisParams statusFilter search ↔
      value ≠ "" ∧ ((key = "status" ∧ value = statusFilter) ∨
        (key = "search" ∧ value = search))) := by
  refine ⟨?_, ?_, ?_, ?_⟩
  · by_cases h1 : categoriaFilter = "" <;> by_cases h2 : statusFilter = "" <;>
      by_cases h3 : search = "" <;>
      simp [fetchVestidosParams, h1, h2, h3, List.filter]
  · by_cases h2 : statusFilter = "" <;> by_cases h3 : search = "" <;>
      simp [fetchAlugueisParams, h2, h3, List.filter]
  · intro key value
    by_cases h1 : categoriaFilter = "" <;> by_cases h2 : statusFilter = "" <;>
      by_cases h3 : search = "" <;>
      simp only [fetchVestidosParams, h1, h2, h3, ne_eq, not_true_eq_false, not_false_eq_true,
        if_true, if_false, List.append_nil, List.nil_append, List.singleton_append,
        List.mem_cons, List.mem_singleton, List.not_mem_nil, Prod.mk.injEq, or_false] <;>
      constructor <;> intro h <;> aesop
  · intro key value
    by_cases h2 : statusFilter = "" <;> by_cases h3 : search = "" <;>
      simp only [fetchAlugueisParams, h2, h3, ne_eq, not_true_eq_false, not_false_eq_true,
        if_true, if_false, List.append_nil, List.nil_append, List.singleton_append,
        List.mem_cons, List.mem_singleton, List.not_mem_nil, Prod.mk.injEq, or_false] <;>
      constructor <;> intro h <;> aesop

/-! ## The status submitted by the detail view -/

theorem reloadedStatuses_append (xs ys : List DetalhesEvent) :
    reloadedStatuses (xs ++ ys) = reloadedStatuses xs ++ reloadedStatuses ys := by
  induction xs with
  | nil => rfl
  | cons e rest ih =>
    cases e <;> simp [reloadedStatuses, ih]

theorem detalhesRun_status_origin (events : List DetalhesEvent) (s : DetalhesState)
    (loaded : List String)
    (h : s.status ∈ statusSelectOptions ∨ s.status ∈ loaded) :
    (detalhesRun s events).status ∈ statusSelectOptions ∨
      (detalhesRun s events).status ∈ loaded ++ reloadedStatuses events := by
  induction events generalizing s loaded with
  | nil => simpa [detalhesRun, reloadedStatuses] using h
  | cons e rest ih =>
    have hrun : detalhesRun s (e :: rest) = detalhesRun (detalhesStep s e) rest := rfl
    rw [hrun]
    cases e with
    | selectStatus value =>
      have hstep : (detalhesStep s (DetalhesEvent.selectStatus value)).status
            ∈ statusSelectOptions ∨
          (detalhesStep s (DetalhesEvent.selectStatus value)).status ∈ loaded := by
        simp only [detalhesStep]
        split_ifs with hv
        · exact Or.inl hv
        · exact h
      simpa [reloadedStatuses] using ih _ loaded hstep
    | editAvarias text =>
      simpa [reloadedStatuses] using ih (detalhesStep s (DetalhesEvent.editAvarias text)) loaded h
    | reload data =>
      have hstep : (detalhesStep s (DetalhesEvent.reload data)).status ∈ statusSelectOptions ∨
          (detalhesStep s (DetalhesEvent.reload data)).status ∈ loaded ++ [data.status] := by
        right
        simp [detalhesStep, fetchAluguel]
      simpa [reloadedStatuses, List.append_assoc] using ih _ (loaded ++ [data.status]) hstep

/-- C17 (counterexample): the operator opens an active contract, picks
'atrasado' in the status select and saves; `handleUpdate` submits the status
'atrasado'. -/
theorem handleUpdate_submits_atrasado :
    (handleUpdate (detalhesRun
      (fetchAluguel ⟨"a1", "v1", "ativo", some 0, 200, some 50, none, none⟩)
      [DetalhesEvent.selectStatus "atrasado"])).status = some "atrasado" := by
  decide

/-- C17 (amended): after every sequence of interactions the status submitted by
`handleUpdate` is the value of the status select: the stored status of a
contract the view has loaded, or one of the options 'ativo', 'finalizado',
'atrasado' picked by the operator. -/
theorem handleUpdate_status_origin (data : Aluguel) (events : List DetalhesEvent) :
    ∃ st, (handleUpdate (detalhesRun (fetchAluguel data) events)).status = some st ∧
      (st ∈ ["ativo", "finalizado", "atrasado"] ∨
        st ∈ data.status :: reloadedStatuses events) := by
  refine ⟨(detalhesRun (fetchAluguel data) events).status, rfl, ?_⟩
  have h := detalhesRun_status_origin events (fetchAluguel data) [data.status]
    (Or.inr (by simp [fetchAluguel]))
  simpa [statusSelectOptions] using h

/-! ## Error messages -/

/-- C18: when `error.response.data.detail` is a non-empty string,
`getErrorMessage` returns exactly that string, whatever the default message. -/
theorem getErrorMessage_string_detail (numberToString : ℚ → String)
    (jsonStringify : JsonValue → String) (error : JsonValue) (s : String)
    (defaultMessage : Option String)
    (hdetail : errorDetail error = some (JsonValue.str s)) (hs : s ≠ "") :
    getErrorMessage numberToString jsonStringify (some error) defaultMessage
      = some (JsonValue.str s) := by
  have htruthy : isTruthy error = true := by
    cases error with
    | obj members => rfl
    | _ => simp [errorDetail, JsonValue.member, optChain] at hdetail
  have hd : isTruthy (JsonValue.str s) = true := by simp [isTruthy, hs]
  simp only [getErrorMessage, htruthy, hdetail, hd, Bool.not_true, Bool.false_eq_true,
    if_false]

/-- Witness of C18: a conflict response with the detail "Vestido indisponivel". -/
theorem getErrorMessage_string_detail_witness :
    getErrorMessage (fun _ => "0") (fun _ => "{}")
      (some (JsonValue.obj [("message", JsonValue.str "Request failed with status code 409"),
        ("response", JsonValue.obj [("data", JsonValue.obj
          [("detail", JsonValue.str "Vestido indisponivel")])])]))
      (some "Erro ao cadastrar aluguel")
      = some (JsonValue.str "Vestido indisponivel") :=
  getErrorMessage_string_detail (fun _ => "0") (fun _ => "{}")
    (JsonValue.obj [("message", JsonValue.str "Request failed with status code 409"),
      ("response", JsonValue.obj [("data", JsonValue.obj
        [("detail", JsonValue.str "Vestido indisponivel")])])])
    "Vestido indisponivel" (some "Erro ao cadastrar aluguel") rfl (by decide)

/-! ## The return date at the day boundary -/

theorem badgeAtrasado_ativo_some (aluguel : Aluguel) (now devolucao : Int)
    (hstatus : aluguel.status = "ativo") (hdev : aluguel.data_devolucao = some devolucao) :
    badgeAtrasado now aluguel = decide (devolucao < now) := by
  simp only [badgeAtrasado, hstatus, hdev, isAtrasado, beq_self_eq_true, Bool.true_and]

/-- C19 (counterexample): the return date 10000-01-01 (day 2932897) in a
browser whose implementation-specific parser reads it as midnight local time,
three hours behind UTC.  The submitted due instant is 03:00:00 UTC of that day,
not 00:00:00 UTC, and an active contract carrying it is not late one
millisecond after 00:00 UTC of the chosen day. -/
theorem data_devolucao_long_year_local_time :
    handleSubmitDatas (fun day => some (day * msPerDay + 10800000)) (some 19722) (some 2932897)
      = some (19722 * msPerDay, 2932897 * msPerDay + 10800000) ∧
    dayOfTimeValue (2932897 * msPerDay + 10800000) = 2932897 ∧
    timeWithinDay (2932897 * msPerDay + 10800000) = 10800000 ∧
    badgeAtrasado (2932897 * msPerDay + 1)
      ⟨"a1", "v1", "ativo", some (2932897 * msPerDay + 10800000), 200, some 0, none, none⟩
        = false := by
  decide

/-- C19 (amended): for a return date with a four-digit year chosen in the
new-rental form, with day number `day`, the submitted due instant is
00:00:00.000 UTC of that day, whatever the implementation-specific parser; an
active contract carrying that instant is not late at any `now` up to that
instant and is late at every later `now`, in particular at every later instant
of the same UTC day. -/
theorem data_devolucao_utc_midnight (legacyParse : Int → Option Int)
    (retirada : Option Int) (day r : Int)
    (hday : -719162 ≤ day ∧ day ≤ 2932896)
    (hr : newDateOfDateInput legacyParse retirada = some r) :
    handleSubmitDatas legacyParse retirada (some day) = some (r, day * msPerDay) ∧
    dayOfTimeValue (day * msPerDay) = day ∧
    timeWithinDay (day * msPerDay) = 0 ∧
    ∀ (aluguel : Aluguel) (now : Int), aluguel.status = "ativo" →
      aluguel.data_devolucao = some (day * msPerDay) →
      (now ≤ day * msPerDay → badgeAtrasado now aluguel = false) ∧
      (day * msPerDay < now → badgeAtrasado now aluguel = true) ∧
      (dayOfTimeValue now = day → 0 < timeWithinDay now → badgeAtrasado now aluguel = true) := by
  have hpos : (0 : Int) < msPerDay := by decide
  have hne : msPerDay ≠ 0 := by decide
  have hnew : newDateOfDateInput legacyParse (some day) = some (day * msPerDay) := by
    simp only [newDateOfDateInput, hday, and_self, if_true]
  refine ⟨?_, ?_, ?_, ?_⟩
  · simp only [handleSubmitDatas, hr, hnew]
  · exact Int.mul_ediv_cancel day hne
  · exact Int.mul_emod_left day msPerDay
  · intro aluguel now hstatus hdev
    rw [badgeAtrasado_ativo_some aluguel now _ hstatus hdev]
    refine ⟨?_, ?_, ?_⟩
    · intro h
      exact decide_eq_false (not_lt.mpr h)
    · intro h
      exact decide_eq_true h
    · intro hd ht
      apply decide_eq_true
      have hsplit := Int.ediv_add_emod now msPerDay
      simp only [dayOfTimeValue] at hd
      simp only [timeWithinDay] at ht
      rw [hd] at hsplit
      have hcomm : day * msPerDay = msPerDay * day := Int.mul_comm _ _
      omega

/-- Witness of C19 (amended): pick-up on day 19722, return on day 19724
(2024-01-02); the contract is not late at the first instant of that day and
late one millisecond after it. -/
theorem data_devolucao_utc_midnight_witness :
    handleSubmitDatas (fun _ => none) (some 19722) (some 19724)
      = some (19722 * msPerDay, 19724 * msPerDay) ∧
    badgeAtrasado (19724 * msPerDay)
      ⟨"a1", "v1", "ativo", some (19724 * msPerDay), 200, some 0, none, none⟩ = false ∧
    badgeAtrasado (19724 * msPerDay + 1)
      ⟨"a1", "v1", "ativo", some (19724 * msPerDay), 200, some 0, none, none⟩ = true := by
  have h := data_devolucao_utc_midnight (fun _ => none) (some 19722) 19724 (19722 * msPerDay)
    (by decide) (by decide)
  have hb := h.2.2.2 ⟨"a1", "v1", "ativo", some (19724 * msPerDay), 200, some 0, none, none⟩
  exact ⟨h.1, (hb (19724 * msPerDay) rfl rfl).1 (le_refl _),
    (hb (19724 * msPerDay + 1) rfl rfl).2.1 (by decide)⟩

/-! ## Creating a contract -/

/-- C20: `createContract` succeeds on every item whose status is `available`,
for a request that passes validation, and the item becomes `rented`; on every
item of any other status it fails with `ConflictError`, whatever the request,
and leaves the item unchanged. -/
theorem createContract_by_item_status (wellFormed : ContractRequest → Bool)
    (item : InventoryItem) (r : ContractRequest) :
    (item.status = ItemStatus.available → validationFails wellFormed r = false →
      createContract wellFormed item r =
        Except.ok ({ item with status := ItemStatus.rented },
          { itemId := item.id, request := r, status := ContractStatus.active,
            amountPaid := 0 }) ∧
      (itemAfterCreate wellFormed item r).status = ItemStatus.rented) ∧
    (item.status ≠ ItemStatus.available →
      createContract wellFormed item r = Except.error ServiceError.conflictError ∧
      itemAfterCreate wellFormed item r = item) := by
  refine ⟨?_, ?_⟩
  · intro hs hv
    have hc : createContract wellFormed item r =
        Except.ok ({ item with status := ItemStatus.rented },
          { itemId := item.id, request := r, status := ContractStatus.active,
            amountPaid := 0 }) := by
      simp only [createContract, hs, hv, ne_eq, not_true_eq_false, if_false,
        Bool.false_eq_true]
    refine ⟨hc, ?_⟩
    simp only [itemAfterCreate, hc]
  · intro hs
    have hc : createContract wellFormed item r = Except.error ServiceError.conflictError := by
      simp only [createContract, hs, ne_eq, not_false_eq_true, if_true]
    refine ⟨hc, ?_⟩
    simp only [itemAfterCreate, hc]

/-- Witness of C20: a valid request on an available item rents it; on an item
in maintenance the same request, and one whose due date precedes the pick-up,
are conflicts. -/
theorem createContract_by_item_status_witness :
    (itemAfterCreate (fun _ => true) ⟨"v1", ItemStatus.available⟩
      ⟨⟨"Ana", "12345678909", "11999990000", "Rua A"⟩, 5, 10, 200, 50, "pix", ""⟩).status
        = ItemStatus.rented ∧
    createContract (fun _ => true) ⟨"v1", ItemStatus.maintenance⟩
      ⟨⟨"Ana", "12345678909", "11999990000", "Rua A"⟩, 5, 10, 200, 50, "pix", ""⟩
        = Except.error ServiceError.conflictError ∧
    createContract (fun _ => true) ⟨"v1", ItemStatus.rented⟩
      ⟨⟨"Ana", "12345678909", "11999990000", "Rua A"⟩, 10, 5, 200, 50, "pix", ""⟩
        = Except.error ServiceError.conflictError := by
  have hv : validationFails (fun _ => true)
      ⟨⟨"Ana", "12345678909", "11999990000", "Rua A"⟩, 5, 10, 200, 50, "pix", ""⟩ = false := by
    simp [validationFails]
  exact ⟨((createContract_by_item_status (fun _ => true) ⟨"v1", ItemStatus.available⟩
      ⟨⟨"Ana", "12345678909", "11999990000", "Rua A"⟩, 5, 10, 200, 50, "pix", ""⟩).1
        rfl hv).2,
    ((createContract_by_item_status (fun _ => true) ⟨"v1", ItemStatus.maintenance⟩
      ⟨⟨"Ana", "12345678909", "11999990000", "Rua A"⟩, 5, 10, 200, 50, "pix", ""⟩).2
        (by decide)).1,
    ((createContract_by_item_status (fun _ => true) ⟨"v1", ItemStatus.rented⟩
      ⟨⟨"Ana", "12345678909", "11999990000", "Rua A"⟩, 10, 5, 200, 50, "pix", ""⟩).2
        (by decide)).1⟩

/-! ## Settling a contract -/

/-- C21: when a contract that is not yet settled is updated to the status
`settled`, the update succeeds, the contract is settled, and its item becomes
`available` unless the item is in `maintenance`, in which case the item is
left as it is. -/
theorem settle_frees_item (contract : RentalContract) (item : InventoryItem)
    (hns : contract.status ≠ ContractStatus.settled) :
    ∃ c i, updateContractStatus contract item (some ContractStatus.settled) = Except.ok (c, i) ∧
      c.status = ContractStatus.settled ∧
      (item.status ≠ ItemStatus.maintenance → i = { item with status := ItemStatus.available }) ∧
      (item.status = ItemStatus.maintenance → i = item) := by
  refine ⟨{ contract with status := ContractStatus.settled },
    if item.status = ItemStatus.maintenance then item
    else { item with status := ItemStatus.available }, ?_, rfl, ?_, ?_⟩
  · simp only [updateContractStatus, hns, ne_eq, not_false_eq_true, if_true]
  · intro h
    simp only [h, if_false]
  · intro h
    simp only [h, if_true]

/-- Witness of C21: an active contract is settled while its item is rented, and
while its item is in maintenance. -/
theorem settle_frees_item_witness :
    (∃ c i, updateContractStatus
        ⟨"v1", ⟨⟨"Ana", "12345678909", "11999990000", "Rua A"⟩, 5, 10, 200, 50, "pix", ""⟩,
          ContractStatus.active, 0⟩ ⟨"v1", ItemStatus.rented⟩ (some ContractStatus.settled)
          = Except.ok (c, i) ∧ i = ⟨"v1", ItemStatus.available⟩) ∧
    (∃ c i, updateContractStatus
        ⟨"v1", ⟨⟨"Ana", "12345678909", "11999990000", "Rua A"⟩, 5, 10, 200, 50, "pix", ""⟩,
          ContractStatus.active, 0⟩ ⟨"v1", ItemStatus.maintenance⟩ (some ContractStatus.settled)
          = Except.ok (c, i) ∧ i = ⟨"v1", ItemStatus.maintenance⟩) := by
  constructor
  · obtain ⟨c, i, h1, _, h3, _⟩ := settle_frees_item
      ⟨"v1", ⟨⟨"Ana", "12345678909", "11999990000", "Rua A"⟩, 5, 10, 200, 50, "pix", ""⟩,
        ContractStatus.active, 0⟩ ⟨"v1", ItemStatus.rented⟩ (by decide)
    exact ⟨c, i, h1, h3 (by decide)⟩
  · obtain ⟨c, i, h1, _, _, h4⟩ := settle_frees_item
      ⟨"v1", ⟨⟨"Ana", "12345678909", "11999990000", "Rua A"⟩, 5, 10, 200, 50, "pix", ""⟩,
        ContractStatus.active, 0⟩ ⟨"v1", ItemStatus.maintenance⟩ (by decide)
    exact ⟨c, i, h1, h4 rfl⟩

/-! ## Validation errors -/

theorem jsElementStrings_segments (numberToString : ℚ → String) (segments : List LocSegment) :
    jsElementStrings numberToString (segments.map LocSegment.toJson)
      = some (segments.map (LocSegment.text numberToString)) := by
  induction segments with
  | nil => simp [jsElementStrings]
  | cons seg rest ih =>
    cases seg <;>
      simp [jsElementStrings, jsToString, LocSegment.toJson, LocSegment.text, ih]

theorem intercalate_go_length (sep : String) (parts : List String) (acc : String) :
    acc.length ≤ (String.intercalate.go acc sep parts).length := by
  induction parts generalizing acc with
  | nil => simp [String.intercalate.go]
  | cons a rest ih =>
    simp only [String.intercalate.go]
    refine le_trans ?_ (ih _)
    simp only [String.length_append]
    omega

theorem intercalate_ne_empty (sep first : String) (rest : List String) (h : first ≠ "") :
    String.intercalate sep (first :: rest) ≠ "" := by
  intro hempty
  have hlen := intercalate_go_length sep rest first
  have h0 : (String.intercalate sep (first :: rest)).length = 0 := by rw [hempty]; rfl
  simp only [String.intercalate] at h0
  have hf : first.length = 0 := by omega
  exact h (String.ext (List.length_eq_zero.mp hf))

theorem formatValidationEntry_toJson (numberToString : ℚ → String) (e : ValidationEntry)
    (hseg : ∀ segments, e.loc = some segments →
      ∀ seg ∈ segments, LocSegment.text numberToString seg ≠ "") :
    formatValidationEntry numberToString e.toJson
      = some (renderValidationEntry numberToString e) := by
  cases hloc : e.loc with
  | none =>
    simp [formatValidationEntry, ValidationEntry.toJson, renderValidationEntry, hloc,
      JsonValue.member, jsToString]
  | some segments =>
    cases segments with
    | nil =>
      simp [formatValidationEntry, ValidationEntry.toJson, renderValidationEntry, hloc,
        JsonValue.member, jsToString, jsElementStrings, String.intercalate]
    | cons seg rest =>
      have hne : String.intercalate "."
          ((seg :: rest).map (LocSegment.text numberToString)) ≠ "" := by
        rw [List.map_cons]
        exact intercalate_ne_empty _ _ _ (hseg _ hloc seg (List.mem_cons_self _ _))
      have hjoin := jsElementStrings_segments numberToString (seg :: rest)
      simp only [formatValidationEntry, ValidationEntry.toJson, renderValidationEntry, hloc,
        JsonValue.member, List.reverse_cons, List.reverse_nil, List.nil_append,
        List.singleton_append, List.find?, beq_self_eq_true, Option.map_some', jsToString]
      simp only [List.map_cons] at hjoin hne
      simp [hjoin, hne]

theorem formatValidationEntries_toJson (numberToString : ℚ → String)
    (entries : List ValidationEntry)
    (hseg : ∀ e ∈ entries, ∀ segments, e.loc = some segments →
      ∀ seg ∈ segments, LocSegment.text numberToString seg ≠ "") :
    formatValidationEntries numberToString (entries.map ValidationEntry.toJson)
      = some (entries.map (renderValidationEntry numberToString)) := by
  induction entries with
  | nil => rfl
  | cons e rest ih =>
    have h1 := formatValidationEntry_toJson numberToString e (hseg e (List.mem_cons_self _ _))
    have h2 := ih (fun x hx => hseg x (List.mem_cons_of_mem _ hx))
    simp only [List.map_cons, formatValidationEntries, h1, h2]

theorem isTruthy_of_errorDetail (error detail : JsonValue)
    (h : errorDetail error = some detail) : isTruthy error = true := by
  cases error with
  | obj members => rfl
  | _ => simp [errorDetail, JsonValue.member, optChain] at h

/-- C22: when `error.response.data.detail` is an array of validation entries
(location absent or a list of segments with non-empty text, message a string),
`getErrorMessage` returns the entries in their order, one per line, each as the
location segments joined by "." followed by ": " and the message, with "Erro"
in place of an absent or empty location. -/
theorem getErrorMessage_validation_entries (numberToString : ℚ → String)
    (jsonStringify : JsonValue → String) (error : JsonValue)
    (entries : List ValidationEntry) (defaultMessage : Option String)
    (hdetail : errorDetail error = some (JsonValue.arr (entries.map ValidationEntry.toJson)))
    (hseg : ∀ e ∈ entries, ∀ segments, e.loc = some segments →
      ∀ seg ∈ segments, LocSegment.text numberToString seg ≠ "") :
    getErrorMessage numberToString jsonStringify (some error) defaultMessage
      = some (JsonValue.str
          (String.intercalate "\n" (entries.map (renderValidationEntry numberToString)))) := by
  have htruthy := isTruthy_of_errorDetail error _ hdetail
  have hlines := formatValidationEntries_toJson numberToString entries hseg
  have harr : isTruthy (JsonValue.arr (entries.map ValidationEntry.toJson)) = true := rfl
  simp only [getErrorMessage, htruthy, hdetail, harr, hlines, Bool.not_true,
    Bool.false_eq_true, if_false]

/-- Witness of C22: a response with two entries, one located at
`body.cliente.cpf` and one without location. -/
theorem getErrorMessage_validation_entries_witness :
    getErrorMessage (fun _ => "0") (fun _ => "[]")
      (some (JsonValue.obj [("response", JsonValue.obj [("data", JsonValue.obj
        [("detail", JsonValue.arr
          [JsonValue.obj [("loc", JsonValue.arr [JsonValue.str "body",
              JsonValue.str "cliente", JsonValue.str "cpf"]),
            ("msg", JsonValue.str "CPF invalido")],
           JsonValue.obj [("msg", JsonValue.str "campo obrigatorio")]])])])]))
      none
      = some (JsonValue.str "body.cliente.cpf: CPF invalido\nErro: campo obrigatorio") :=
  getErrorMessage_validation_entries (fun _ => "0") (fun _ => "[]")
    (JsonValue.obj [("response", JsonValue.obj [("data", JsonValue.obj
      [("detail", JsonValue.arr
        [JsonValue.obj [("loc", JsonValue.arr [JsonValue.str "body",
            JsonValue.str "cliente", JsonValue.str "cpf"]),
          ("msg", JsonValue.str "CPF invalido")],
         JsonValue.obj [("msg", JsonValue.str "campo obrigatorio")]])])])])
    [⟨some [LocSegment.campo "body", LocSegment.campo "cliente", LocSegment.campo "cpf"],
        "CPF invalido"⟩,
      ⟨none, "campo obrigatorio"⟩]
    none rfl
    (by
      intro e he segments hloc seg hseg
      simp only [List.mem_cons, List.mem_singleton, List.not_mem_nil, or_false] at he
      rcases he with rfl | rfl
      · simp only [Option.some.injEq] at hloc
        subst hloc
        simp only [List.mem_cons, List.mem_singleton, List.not_mem_nil, or_false] at hseg
        rcases hseg with rfl | rfl | rfl <;> decide
      · exact absurd hloc (by simp))

/-- C23: `getErrorMessage` falls back in a fixed order: an `undefined` or `null`
error gives the default message; an error whose `response.data.detail` is
missing, `null` or empty gives `error.message` when that is a non-empty string
and the default message otherwise; the default message is "Ocorreu um erro
inesperado" when the argument is omitted. -/
theorem getErrorMessage_fallback_order (numberToString : ℚ → String)
    (jsonStringify : JsonValue → String) (defaultMessage : Option String) :
    getErrorMessage numberToString jsonStringify none defaultMessage
      = some (JsonValue.str (defaultMessage.getD "Ocorreu um erro inesperado")) ∧
    getErrorMessage numberToString jsonStringify (some JsonValue.null) defaultMessage
      = some (JsonValue.str (defaultMessage.getD "Ocorreu um erro inesperado")) ∧
    getErrorMessage numberToString jsonStringify none none
      = some (JsonValue.str "Ocorreu um erro inesperado") ∧
    (∀ error, isTruthy error = true →
      (errorDetail error = none ∨ errorDetail error = some JsonValue.null ∨
        errorDetail error = some (JsonValue.str "")) →
      (∀ m, error.member "message" = some (JsonValue.str m) → m ≠ "" →
        getErrorMessage numberToString jsonStringify (some error) defaultMessage
          = some (JsonValue.str m)) ∧
      ((error.member "message" = none ∨ error.member "message" = some (JsonValue.str "")) →
        getErrorMessage numberToString jsonStringify (some error) defaultMessage
          = some (JsonValue.str (defaultMessage.getD "Ocorreu um erro inesperado")))) := by
  refine ⟨rfl, rfl, rfl, ?_⟩
  intro error htruthy hdetail
  have hfall : getErrorMessage numberToString jsonStringify (some error) defaultMessage
      = some (messageOrDefault error (defaultMessage.getD "Ocorreu um erro inesperado")) := by
    have hnull : isTruthy JsonValue.null = false := rfl
    have hempty : isTruthy (JsonValue.str "") = false := by simp [isTruthy]
    rcases hdetail with h | h | h <;>
      simp only [getErrorMessage, htruthy, h, hnull, hempty, Bool.not_true, Bool.not_false,
        Bool.false_eq_true, if_false, if_true]
  constructor
  · intro m hm hne
    have hmt : isTruthy (JsonValue.str m) = true := by simp [isTruthy, hne]
    rw [hfall]
    simp only [messageOrDefault, hm, hmt, if_true]
  · intro hm
    have hempty : isTruthy (JsonValue.str "") = false := by simp [isTruthy]
    rw [hfall]
    rcases hm with h | h <;>
      simp only [messageOrDefault, h, hempty, Bool.false_eq_true, if_false]

/-- Witness of C23: a network error without response, first with a message and
then with an empty one. -/
theorem getErrorMessage_fallback_order_witness :
    getErrorMessage (fun _ => "0") (fun _ => "[]")
      (some (JsonValue.obj [("message", JsonValue.str "Network Error")]))
      (some "Erro ao carregar vestidos") = some (JsonValue.str "Network Error") ∧
    getErrorMessage (fun _ => "0") (fun _ => "[]")
      (some (JsonValue.obj [("message", JsonValue.str "")]))
      (some "Erro ao carregar vestidos") = some (JsonValue.str "Erro ao carregar vestidos") :=
  ⟨((getErrorMessage_fallback_order (fun _ => "0") (fun _ => "[]")
      (some "Erro ao carregar vestidos")).2.2.2
      (JsonValue.obj [("message", JsonValue.str "Network Error")]) rfl (Or.inl rfl)).1
      "Network Error" rfl (by decide),
   ((getErrorMessage_fallback_order (fun _ => "0") (fun _ => "[]")
      (some "Erro ao carregar vestidos")).2.2.2
      (JsonValue.obj [("message", JsonValue.str "")]) rfl (Or.inl rfl)).2 (Or.inr rfl)⟩

theorem formatValidationEntry_toJson_some (numberToString : ℚ → String)
    (e : ValidationEntry) :
    ∃ line, formatValidationEntry numberToString e.toJson = some line := by
  cases hloc : e.loc with
  | none =>
    simp [formatValidationEntry, ValidationEntry.toJson, hloc, JsonValue.member, jsToString]
  | some segments =>
    have hjoin := jsElementStrings_segments numberToString segments
    simp [formatValidationEntry, ValidationEntry.toJson, hloc, JsonValue.member, jsToString,
      hjoin]

theorem formatValidationEntries_toJson_some (numberToString : ℚ → String)
    (entries : List ValidationEntry) :
    ∃ lines, formatValidationEntries numberToString (entries.map ValidationEntry.toJson)
      = some lines := by
  induction entries with
  | nil => exact ⟨[], rfl⟩
  | cons e rest ih =>
    obtain ⟨line, h1⟩ := formatValidationEntry_toJson_some numberToString e
    obtain ⟨lines, h2⟩ := ih
    exact ⟨line :: lines, by simp only [List.map_cons, formatValidationEntries, h1, h2]⟩

/-- C24 (counterexample): the array `detail` has a `null` entry; reading
`err.loc` throws and `getErrorMessage` returns nothing.  The same happens when
`loc` is a string, which has no `join`. -/
theorem getErrorMessage_throws_on_null_entry :
    getErrorMessage (fun _ => "0") (fun _ => "[]")
      (some (JsonValue.obj [("message", JsonValue.str "Request failed with status code 422"),
        ("response", JsonValue.obj [("data", JsonValue.obj
          [("detail", JsonValue.arr [JsonValue.null])])])]))
      (some "Erro ao cadastrar aluguel") = none ∧
    getErrorMessage (fun _ => "0") (fun _ => "[]")
      (some (JsonValue.obj [("response", JsonValue.obj [("data", JsonValue.obj
          [("detail", JsonValue.arr [JsonValue.obj
            [("loc", JsonValue.str "body"), ("msg", JsonValue.str "invalido")]])])])]))
      (some "Erro ao cadastrar aluguel") = none :=
  ⟨rfl, rfl⟩

/-- C24 (amended): `getErrorMessage` returns a string and does not throw for
every error value (`undefined`, `null`, an error with or without response)
whose `message`, when truthy, is a string and whose `response.data.detail`,
when it is an array, is an array of validation entries; the detail may
otherwise be missing, a string, a number, a boolean or an object. -/
theorem getErrorMessage_total_on_entries (numberToString : ℚ → String)
    (jsonStringify : JsonValue → String) (error : Option JsonValue)
    (defaultMessage : Option String)
    (hmsg : ∀ e m, error = some e → e.member "message" = some m → isTruthy m = true →
      ∃ text, m = JsonValue.str text)
    (harr : ∀ e items, error = some e → errorDetail e = some (JsonValue.arr items) →
      ∃ entries : List ValidationEntry, items = entries.map ValidationEntry.toJson) :
    ∃ text, getErrorMessage numberToString jsonStringify error defaultMessage
      = some (JsonValue.str text) := by
  cases error with
  | none => exact ⟨_, rfl⟩
  | some e =>
    have hfallback : ∃ text, messageOrDefault e
        (defaultMessage.getD "Ocorreu um erro inesperado") = JsonValue.str text := by
      unfold messageOrDefault
      cases hm : e.member "message" with
      | none => exact ⟨_, rfl⟩
      | some m =>
        by_cases ht : isTruthy m = true
        · obtain ⟨text, rfl⟩ := hmsg e m rfl hm ht
          simp only [ht, if_true]
          exact ⟨_, rfl⟩
        · have ht2 : isTruthy m = false := by simpa using ht
          simp only [ht2, Bool.false_eq_true, if_false]
          exact ⟨_, rfl⟩
    obtain ⟨fb, hfb⟩ := hfallback
    by_cases htruthy : isTruthy e = true
    · cases hdetail : errorDetail e with
      | none =>
        simp only [getErrorMessage, htruthy, hdetail, hfb, Bool.not_true,
          Bool.false_eq_true, if_false]
        exact ⟨_, rfl⟩
      | some detail =>
        by_cases hd : isTruthy detail = true
        · cases detail with
          | null => exact absurd hd (by simp [isTruthy])
          | arr items =>
            obtain ⟨entries, rfl⟩ := harr e items rfl hdetail
            obtain ⟨lines, hlines⟩ := formatValidationEntries_toJson_some numberToString entries
            simp only [getErrorMessage, htruthy, hdetail, hd, hlines,
              Bool.not_true, Bool.false_eq_true, if_false]
            exact ⟨_, rfl⟩
          | str text =>
            simp only [getErrorMessage, htruthy, hdetail, hd, Bool.not_true,
              Bool.false_eq_true, if_false]
            exact ⟨_, rfl⟩
          | bool b =>
            simp only [getErrorMessage, htruthy, hdetail, hd, Bool.not_true,
              Bool.false_eq_true, if_false]
            exact ⟨_, rfl⟩
          | num n =>
            simp only [getErrorMessage, htruthy, hdetail, hd, Bool.not_true,
              Bool.false_eq_true, if_false]
            exact ⟨_, rfl⟩
          | obj members =>
            simp only [getErrorMessage, htruthy, hdetail, hd, Bool.not_true,
              Bool.false_eq_true, if_false]
            exact ⟨_, rfl⟩
        · have hd2 : isTruthy detail = false := by simpa using hd
          simp only [getErrorMessage, htruthy, hdetail, hd2, hfb, Bool.not_true,
            Bool.not_false, Bool.false_eq_true, if_false, if_true]
          exact ⟨_, rfl⟩
    · have ht2 : isTruthy e = false := by simpa using htruthy
      simp only [getErrorMessage, ht2, Bool.not_false, if_true]
      exact ⟨_, rfl⟩

/-- Witness of C24 (amended): an error whose detail is an array with one
validation entry. -/
theorem getErrorMessage_total_on_entries_witness :
    ∃ text, getErrorMessage (fun _ => "0") (fun _ => "[object]")
      (some (JsonValue.obj [("message", JsonValue.str "Request failed with status code 422"),
        ("response", JsonValue.obj [("data", JsonValue.obj
          [("detail", JsonValue.arr
            [JsonValue.obj [("loc", JsonValue.arr [JsonValue.str "body", JsonValue.str "cpf"]),
              ("msg", JsonValue.str "CPF invalido")]])])])]))
      none = some (JsonValue.str text) :=
  getErrorMessage_total_on_entries (fun _ => "0") (fun _ => "[object]")
    (some (JsonValue.obj [("message", JsonValue.str "Request failed with status code 422"),
      ("response", JsonValue.obj [("data", JsonValue.obj
        [("detail", JsonValue.arr
          [JsonValue.obj [("loc", JsonValue.arr [JsonValue.str "body", JsonValue.str "cpf"]),
            ("msg", JsonValue.str "CPF invalido")]])])])]))
    none
    (by
      intro e m he hm _
      simp only [Option.some.injEq] at he
      subst he
      simp [JsonValue.member] at hm
      exact ⟨_, hm.symm⟩)
    (by
      intro e items he hd
      simp only [Option.some.injEq] at he
      subst he
      have h : errorDetail
          (JsonValue.obj [("message", JsonValue.str "Request failed with status code 422"),
            ("response", JsonValue.obj [("data", JsonValue.obj
              [("detail", JsonValue.arr
                [JsonValue.obj
                  [("loc", JsonValue.arr [JsonValue.str "body", JsonValue.str "cpf"]),
                    ("msg", JsonValue.str "CPF invalido")]])])])])
          = some (JsonValue.arr
            [JsonValue.obj [("loc", JsonValue.arr [JsonValue.str "body", JsonValue.str "cpf"]),
              ("msg", JsonValue.str "CPF invalido")]]) := rfl
      rw [h] at hd
      simp only [Option.some.injEq, JsonValue.arr.injEq] at hd
      subst hd
      exact ⟨[⟨some [LocSegment.campo "body", LocSegment.campo "cpf"], "CPF invalido"⟩], rfl⟩)

/-- C25 (evaluation of the code): when `detail` is the empty array,
`getErrorMessage` returns the empty string, although the default message is
not empty. -/
theorem getErrorMessage_empty_on_empty_array (numberToString : ℚ → String)
    (jsonStringify : JsonValue → String) :
    getErrorMessage numberToString jsonStringify
      (some (JsonValue.obj [("message", JsonValue.str "Request failed with status code 422"),
        ("response", JsonValue.obj [("data", JsonValue.obj
          [("detail", JsonValue.arr [])])])]))
      (some "Erro ao cadastrar aluguel") = some (JsonValue.str "") :=
  rfl

/-! ## Badges with three clock readings -/

/-- C26: when the three clock readings of one render of a rental card are
non-decreasing, `t0 ≤ t1 ≤ t2`, the late badge (read at `t0`) and the due-soon
badge (read at `t1` and `t2`) are never both shown. -/
theorem badges_exclusive_three_readings (aluguel : Aluguel) (t0 t1 t2 : Int)
    (h01 : t0 ≤ t1) (h12 : t1 ≤ t2) :
    (badgeAtrasado t0 aluguel && badgeProximo t1 t2 aluguel) = false := by
  rw [Bool.and_eq_false_iff]
  by_cases hlate : badgeAtrasado t0 aluguel = true
  · right
    simp only [badgeAtrasado, Bool.and_eq_true] at hlate
    cases hdd : aluguel.data_devolucao with
    | none => simp [badgeProximo, hdd, isProximo]
    | some d =>
      have h0 : d < t0 := by simpa [hdd, isAtrasado] using hlate.2
      have h2 : isAtrasado t2 (some d) = true := by
        simp only [isAtrasado, decide_eq_true_eq]
        omega
      simp [badgeProximo, hdd, h2]
  · left
    simpa using hlate

/-- Witness of C26: a contract due at 1000 and readings 1001, 1002, 1003. -/
theorem badges_exclusive_three_readings_witness :
    (badgeAtrasado 1001 ⟨"a1", "v1", "ativo", some 1000, 200, some 50, none, none⟩ &&
      badgeProximo 1002 1003 ⟨"a1", "v1", "ativo", some 1000, 200, some 50, none, none⟩)
      = false :=
  badges_exclusive_three_readings ⟨"a1", "v1", "ativo", some 1000, 200, some 50, none, none⟩
    1001 1002 1003 (by decide) (by decide)

/-! ## The option "todos" of the filters -/

/-- C27: every non-empty filter value is sent verbatim as the `categoria` or
`status` parameter and the parameter is left out only for the empty string;
"todos" is an item value of each filter select, so choosing it sends
`status=todos` (or `categoria=todos`) instead of clearing the filter. -/
theorem todos_sent_verbatim (categoriaFilter statusFilter search : String) :
    (fetchVestidosParams categoriaFilter statusFilter search).lookup "categoria"
      = (if categoriaFilter = "" then none else some categoriaFilter) ∧
    (fetchVestidosParams categoriaFilter statusFilter search).lookup "status"
      = (if statusFilter = "" then none else some statusFilter) ∧
    (fetchAlugueisParams statusFilter search).lookup "status"
      = (if statusFilter = "" then none else some statusFilter) ∧
    "todos" ∈ vestidosCategoriaOptions ∧ "todos" ∈ vestidosStatusOptions ∧
    "todos" ∈ alugueisStatusOptions ∧
    (fetchVestidosParams "todos" statusFilter search).lookup "categoria" = some "todos" ∧
    (fetchVestidosParams categoriaFilter "todos" search).lookup "status" = some "todos" ∧
    (fetchAlugueisParams "todos" search).lookup "status" = some "todos" := by
  have hv : ∀ c st se : String,
      (fetchVestidosParams c st se).lookup "categoria" = (if c = "" then none else some c) ∧
      (fetchVestidosParams c st se).lookup "status" = (if st = "" then none else some st) := by
    intro c st se
    by_cases h1 : c = "" <;> by_cases h2 : st = "" <;> by_cases h3 : se = "" <;>
      simp [fetchVestidosParams, h1, h2, h3, List.lookup]
  have ha : ∀ st se : String,
      (fetchAlugueisParams st se).lookup "status" = (if st = "" then none else some st) := by
    intro st se
    by_cases h2 : st = "" <;> by_cases h3 : se = "" <;>
      simp [fetchAlugueisParams, h2, h3, List.lookup]
  refine ⟨(hv _ _ _).1, (hv _ _ _).2, ha _ _, by decide, by decide, by decide, ?_, ?_, ?_⟩
  · rw [(hv _ _ _).1]; rfl
  · rw [(hv _ _ _).2]; rfl
  · rw [ha]; rfl

/-! ## Choosing the item in the new-rental form -/

/-- C28 (evaluation of the code): selecting an item of the fetched list sets
`vestido_id` to its id and, when its price is not 0, sets `valor_aluguel` to the
price; when the price is 0 the field is set to the empty string, not to 0. -/
theorem handleVestidoChange_zero_price :
    (∀ (s : NovoAluguelState) (v : Vestido),
      s.vestidos.find? (fun x => x.id == v.id) = some v →
      (handleVestidoChange v.id s).formData.vestido_id = v.id ∧
      (v.valor_aluguel ≠ 0 →
        (handleVestidoChange v.id s).formData.valor_aluguel
          = FormValor.numero v.valor_aluguel) ∧
      (v.valor_aluguel = 0 →
        (handleVestidoChange v.id s).formData.valor_aluguel = FormValor.texto "")) ∧
    (handleVestidoChange "v1"
      ⟨[⟨"v1", "Vestido azul", "A1", 0⟩], none,
        ⟨"", "", "", "", "", none, none, FormValor.texto "", "", "", ""⟩⟩).formData.valor_aluguel
      = FormValor.texto "" ∧
    (handleVestidoChange "v1"
      ⟨[⟨"v1", "Vestido azul", "A1", 0⟩], none,
        ⟨"", "", "", "", "", none, none, FormValor.texto "", "", "", ""⟩⟩).formData.valor_aluguel
      ≠ FormValor.numero 0 := by
  have hgen : ∀ (s : NovoAluguelState) (v : Vestido),
      s.vestidos.find? (fun x => x.id == v.id) = some v →
      (handleVestidoChange v.id s).formData.vestido_id = v.id ∧
      (v.valor_aluguel ≠ 0 →
        (handleVestidoChange v.id s).formData.valor_aluguel
          = FormValor.numero v.valor_aluguel) ∧
      (v.valor_aluguel = 0 →
        (handleVestidoChange v.id s).formData.valor_aluguel = FormValor.texto "") := by
    intro s v hfind
    refine ⟨rfl, ?_, ?_⟩
    · intro hne
      simp only [handleVestidoChange, hfind, hne, if_false]
    · intro hz
      simp only [handleVestidoChange, hfind, hz, if_true]
  have hzero := (hgen
    ⟨[⟨"v1", "Vestido azul", "A1", 0⟩], none,
      ⟨"", "", "", "", "", none, none, FormValor.texto "", "", "", ""⟩⟩
    ⟨"v1", "Vestido azul", "A1", 0⟩ rfl).2.2 rfl
  refine ⟨hgen, hzero, ?_⟩
  rw [hzero]
  exact fun h => FormValor.noConfusion h

/-- Witness of C28 (evaluation of the code): an item priced 150 is copied into
the form, an item priced 0 leaves the price field empty. -/
theorem handleVestidoChange_zero_price_witness :
    (handleVestidoChange "v2"
      ⟨[⟨"v1", "Vestido azul", "A1", 0⟩, ⟨"v2", "Vestido rosa", "A2", 150⟩], none,
        ⟨"", "", "", "", "", none, none, FormValor.texto "", "", "", ""⟩⟩).formData.valor_aluguel
      = FormValor.numero 150 :=
  ((handleVestidoChange_zero_price.1
    ⟨[⟨"v1", "Vestido azul", "A1", 0⟩, ⟨"v2", "Vestido rosa", "A2", 150⟩], none,
      ⟨"", "", "", "", "", none, none, FormValor.texto "", "", "", ""⟩⟩
    ⟨"v2", "Vestido rosa", "A2", 150⟩ rfl).2.1 (by norm_num))

/-! ## The active sidebar entry -/

theorem isActive_iff (pathname path : String) :
    isActive pathname path = true ↔
      pathname = path ∨ ∃ rest, pathname.data = path.data ++ '/' :: rest := by
  simp only [isActive, Bool.or_eq_true, beq_iff_eq, List.isPrefixOf_iff_prefix]
  constructor
  · rintro (h | ⟨t, ht⟩)
    · exact Or.inl h
    · exact Or.inr ⟨t, by rw [← ht]; simp⟩
  · rintro (h | ⟨t, ht⟩)
    · exact Or.inl h
    · exact Or.inr ⟨t, by rw [ht]; simp⟩

theorem isActive_take_two (pathname path : String) (hlen : 2 ≤ path.data.length)
    (h : isActive pathname path = true) : pathname.data.take 2 = path.data.take 2 := by
  rcases (isActive_iff pathname path).mp h with rfl | ⟨rest, hrest⟩
  · rfl
  · rw [hrest, List.take_append_of_le_length hlen]

/-- C29: a sidebar entry with path `p` is highlighted exactly when the pathname
equals `p` or begins with `p` followed by "/", and at most one of the three
entries "/dashboard", "/vestidos", "/alugueis" is highlighted. -/
theorem isActive_at_most_one (pathname : String) :
    (∀ p, isActive pathname p = true ↔
      pathname = p ∨ ∃ rest, pathname.data = p.data ++ '/' :: rest) ∧
    (menuItemPaths.filter (fun p => isActive pathname p)).length ≤ 1 := by
  refine ⟨isActive_iff pathname, ?_⟩
  have hd := isActive_take_two pathname "/dashboard" (by decide)
  have hv := isActive_take_two pathname "/vestidos" (by decide)
  have ha := isActive_take_two pathname "/alugueis" (by decide)
  have hdv : ("/dashboard".data.take 2) ≠ ("/vestidos".data.take 2) := by decide
  have hda : ("/dashboard".data.take 2) ≠ ("/alugueis".data.take 2) := by decide
  have hva : ("/vestidos".data.take 2) ≠ ("/alugueis".data.take 2) := by decide
  simp only [menuItemPaths, List.filter]
  cases h1 : isActive pathname "/dashboard" <;> cases h2 : isActive pathname "/vestidos" <;>
    cases h3 : isActive pathname "/alugueis" <;> simp only [List.length_cons, List.length_nil]
  all_goals first
    | omega
    | exact absurd ((hd h1).symm.trans (hv h2)) hdv
    | exact absurd ((hd h1).symm.trans (ha h3)) hda
    | exact absurd ((hv h2).symm.trans (ha h3)) hva

/-! ## Import aliases -/

theorem takeSpecifier_length (l p after : List Char)
    (h : takeSpecifier l = some (p, after)) : after.length < l.length := by
  induction l generalizing p after with
  | nil => simp [takeSpecifier] at h
  | cons c rest ih =>
    simp only [takeSpecifier] at h
    split_ifs at h with hq hl
    · simp only [Option.some.injEq, Prod.mk.injEq] at h
      obtain ⟨-, rfl⟩ := h
      simp
    · cases hrec : takeSpecifier rest with
      | none => simp [hrec] at h
      | some pr =>
        obtain ⟨p2, a2⟩ := pr
        simp only [hrec, Option.some.injEq, Prod.mk.injEq] at h
        obtain ⟨-, rfl⟩ := h
        have := ih _ _ hrec
        simp only [List.length_cons]
        omega

theorem replaceAliases_fuel (k : Nat) (n : Nat) :
    ∀ (m : Nat) (content : List Char), content.length < n → content.length < m →
      replaceAliases k n content = replaceAliases k m content := by
  induction n with
  | zero => intro m content hn; omega
  | succ n ih =>
    intro m content hn hm
    cases m with
    | zero => omega
    | succ m =>
      cases content with
      | nil => simp [replaceAliases]
      | cons c rest =>
        simp only [List.length_cons] at hn hm
        have hrest := ih m rest (by omega) (by omega)
        simp only [replaceAliases]
        split_ifs with hc
        · cases hspec : takeSpecifier (rest.drop 2) with
          | none => simp only [hrest]
          | some pr =>
            obtain ⟨p1, after⟩ := pr
            have hlen := takeSpecifier_length _ _ _ hspec
            have hdrop : (rest.drop 2).length ≤ rest.length := by simp
            simp only [ih m after (by omega) (by omega)]
        · simp only [hrest]

theorem isPrefixOf_alias_append (pre x : List Char)
    (hx : x = [] ∨ ∃ q t, x = q :: t ∧ isQuote q = true)
    (h : ['@', '/'].isPrefixOf pre = false) : ['@', '/'].isPrefixOf (pre ++ x) = false := by
  have hat : isQuote '@' = false := by decide
  have hsl : isQuote '/' = false := by decide
  cases pre with
  | nil =>
    rcases hx with rfl | ⟨q, t, rfl, hq⟩
    · rfl
    · have : ('@' == q) = false := by
        by_contra hne
        simp only [Bool.not_eq_false, beq_iff_eq] at hne
        rw [← hne, hat] at hq
        exact absurd hq (by decide)
      simp [List.isPrefixOf, this]
  | cons a rest =>
    cases rest with
    | nil =>
      rcases hx with rfl | ⟨q, t, rfl, hq⟩
      · simpa using h
      · have : ('/' == q) = false := by
          by_contra hne
          simp only [Bool.not_eq_false, beq_iff_eq] at hne
          rw [← hne, hsl] at hq
          exact absurd hq (by decide)
        simp [List.isPrefixOf, this]
    | cons b rest2 =>
      simpa [List.isPrefixOf] using h

theorem replaceAliases_cons (k fuel : Nat) (c : Char) (rest : List Char) :
    replaceAliases k (fuel + 1) (c :: rest) =
      if (isQuote c && ['@', '/'].isPrefixOf rest) = true then
        match takeSpecifier (rest.drop 2) with
        | some (p1, after) => rewriteSpecifier k c p1 ++ replaceAliases k fuel after
        | none => c :: replaceAliases k fuel rest
      else c :: replaceAliases k fuel rest := rfl

theorem replaceAliases_aliasFree_append (k : Nat) (pre x : List Char)
    (hpre : aliasFree pre = true)
    (hx : x = [] ∨ ∃ q t, x = q :: t ∧ isQuote q = true) :
    replaceAliases k ((pre ++ x).length + 1) (pre ++ x)
      = pre ++ replaceAliases k (x.length + 1) x := by
  induction pre with
  | nil => rfl
  | cons c rest ih =>
    simp only [aliasFree, Bool.and_eq_true, Bool.not_eq_true'] at hpre
    obtain ⟨hc, hrest⟩ := hpre
    have hcond : (isQuote c && ['@', '/'].isPrefixOf (rest ++ x)) = false := by
      cases hq : isQuote c with
      | false => rfl
      | true =>
        rw [hq, Bool.true_and] at hc
        rw [Bool.true_and]
        exact isPrefixOf_alias_append rest x hx hc
    have hstep : replaceAliases k ((rest ++ x).length + 1 + 1) (c :: (rest ++ x))
        = c :: replaceAliases k ((rest ++ x).length + 1) (rest ++ x) := by
      rw [replaceAliases_cons, hcond]
      rfl
    have hlen : (c :: rest ++ x).length + 1 = (rest ++ x).length + 1 + 1 := by
      simp only [List.cons_append, List.length_cons]
    rw [hlen, List.cons_append, hstep, ih hrest]
    rfl

theorem replaceAliases_aliasFree (k : Nat) (content : List Char)
    (h : aliasFree content = true) :
    replaceAliases k (content.length + 1) content = content := by
  have := replaceAliases_aliasFree_append k content [] h (Or.inl rfl)
  simpa [replaceAliases] using this

theorem takeSpecifier_ordinary (p after : List Char) (q : Char)
    (hp : ∀ c ∈ p, isQuote c = false ∧ isLineTerminator c = false) (hq : isQuote q = true) :
    takeSpecifier (p ++ q :: after) = some (p, after) := by
  induction p with
  | nil => simp [takeSpecifier, hq]
  | cons c rest ih =>
    have hc := hp c (List.mem_cons_self _ _)
    have hr := ih (fun x hx => hp x (List.mem_cons_of_mem _ hx))
    simp [takeSpecifier, hc.1, hc.2, hr]

theorem joinSlash_cons_cons (seg next : List Char) (rest : List (List Char)) :
    joinSlash (seg :: next :: rest) = seg ++ '/' :: joinSlash (next :: rest) := rfl

theorem joinSlash_append (xs ys : List (List Char)) (hx : xs ≠ []) (hy : ys ≠ []) :
    joinSlash (xs ++ ys) = joinSlash xs ++ '/' :: joinSlash ys := by
  induction xs with
  | nil => exact absurd rfl hx
  | cons seg rest ih =>
    cases rest with
    | nil =>
      cases ys with
      | nil => exact absurd rfl hy
      | cons y ys2 => rfl
    | cons next rest2 =>
      have := ih (by simp)
      simp only [List.cons_append] at this ⊢
      rw [joinSlash_cons_cons, joinSlash_cons_cons, this]
      simp

theorem splitSlash_ne_nil (l : List Char) : splitSlash l ≠ [] := by
  induction l with
  | nil => simp [splitSlash]
  | cons c rest ih =>
    simp only [splitSlash]
    split_ifs
    · simp
    · cases h : splitSlash rest with
      | nil => simp
      | cons seg segs => simp

theorem splitSlash_segment (seg : List Char) (h : '/' ∉ seg) : splitSlash seg = [seg] := by
  induction seg with
  | nil => rfl
  | cons c rest ih =>
    have hc : c ≠ '/' := fun e => h (by simp [e])
    have hr := ih (fun e => h (List.mem_cons_of_mem _ e))
    simp [splitSlash, hc, hr]

theorem splitSlash_segment_append (seg tail : List Char) (h : '/' ∉ seg) :
    splitSlash (seg ++ '/' :: tail) = seg :: splitSlash tail := by
  induction seg with
  | nil => simp [splitSlash]
  | cons c rest ih =>
    have hc : c ≠ '/' := fun e => h (by simp [e])
    have hr := ih (fun e => h (List.mem_cons_of_mem _ e))
    simp [splitSlash, hc, hr]

theorem splitSlash_joinSlash (segs : List (List Char)) (hne : segs ≠ [])
    (h : ∀ seg ∈ segs, '/' ∉ seg) : splitSlash (joinSlash segs) = segs := by
  induction segs with
  | nil => exact absurd rfl hne
  | cons seg rest ih =>
    cases rest with
    | nil => exact splitSlash_segment seg (h seg (List.mem_cons_self _ _))
    | cons next rest2 =>
      rw [joinSlash_cons_cons,
        splitSlash_segment_append _ _ (h seg (List.mem_cons_self _ _)),
        ih (by simp) (fun s hs => h s (List.mem_cons_of_mem _ hs))]

theorem ordinaryChar_spec (c : Char) (h : ordinaryChar c = true) :
    c ≠ '/' ∧ c ≠ barraInvertida ∧ isQuote c = false ∧ isLineTerminator c = false := by
  simp only [ordinaryChar, Bool.and_eq_true, bne_iff_ne, ne_eq, Bool.not_eq_true'] at h
  exact ⟨h.1.1.1, h.1.1.2, h.1.2, h.2⟩

theorem ordinarySegment_spec (seg : List Char) (h : ordinarySegment seg = true) :
    seg ≠ [] ∧ seg ≠ ['.'] ∧ seg ≠ ['.', '.'] ∧ ∀ c ∈ seg, ordinaryChar c = true := by
  simp only [ordinarySegment, Bool.and_eq_true, bne_iff_ne, ne_eq, List.all_eq_true] at h
  exact ⟨h.1.1.1, h.1.1.2, h.1.2, h.2⟩

theorem normalizeSegments_cons (b : Bool) (acc : List (List Char)) (seg : List Char)
    (rest : List (List Char)) :
    normalizeSegments b acc (seg :: rest) =
      if seg = [] ∨ seg = ['.'] then normalizeSegments b acc rest
      else if seg = ['.', '.'] then
        match acc with
        | last :: kept =>
          if last = ['.', '.'] then normalizeSegments b (seg :: acc) rest
          else normalizeSegments b kept rest
        | [] =>
          if b then normalizeSegments b [seg] rest
          else normalizeSegments b [] rest
      else normalizeSegments b (seg :: acc) rest := by
  cases acc <;> simp only [normalizeSegments]

theorem normalizeSegments_ordinary (b : Bool) (segs acc : List (List Char))
    (h : ∀ seg ∈ segs, ordinarySegment seg = true) :
    normalizeSegments b acc segs = acc.reverse ++ segs := by
  induction segs generalizing acc with
  | nil => simp [normalizeSegments]
  | cons seg rest ih =>
    obtain ⟨h1, h2, h3, -⟩ := ordinarySegment_spec seg (h seg (List.mem_cons_self _ _))
    rw [normalizeSegments_cons, if_neg (by simp [h1, h2]), if_neg h3,
      ih _ (fun s hs => h s (List.mem_cons_of_mem _ hs))]
    simp

theorem normalizeSegments_ups (i j : Nat) (rest : List (List Char)) :
    normalizeSegments true (List.replicate j ['.', '.']) (List.replicate i ['.', '.'] ++ rest)
      = normalizeSegments true (List.replicate (j + i) ['.', '.']) rest := by
  induction i generalizing j with
  | zero => rfl
  | succ i ih =>
    have hstep : normalizeSegments true (List.replicate j ['.', '.'])
        (['.', '.'] :: (List.replicate i ['.', '.'] ++ rest))
        = normalizeSegments true (List.replicate (j + 1) ['.', '.'])
          (List.replicate i ['.', '.'] ++ rest) := by
      rw [normalizeSegments_cons, if_neg (by decide), if_pos rfl]
      cases j with
      | zero => rfl
      | succ j =>
        simp only [List.replicate_succ, if_true]
    rw [List.replicate_succ, List.cons_append, hstep, ih (j + 1)]
    congr 2
    omega

theorem replicate_reverse_ups (k : Nat) :
    (List.replicate k ['.', '.']).reverse = List.replicate k ['.', '.'] := by
  simp

theorem normalizeSegments_relative (k : Nat) (segs : List (List Char))
    (h : ∀ seg ∈ segs, ordinarySegment seg = true) :
    normalizeSegments true []
        ((if k = 0 then [['.']] else List.replicate k ['.', '.']) ++ segs)
      = List.replicate k ['.', '.'] ++ segs := by
  by_cases hk : k = 0
  · subst hk
    simp only [if_true, List.singleton_append, List.replicate_zero, List.nil_append]
    rw [normalizeSegments_cons, if_pos (Or.inr rfl), normalizeSegments_ordinary _ _ _ h]
    rfl
  · simp only [hk, if_false]
    have := normalizeSegments_ups k 0 segs
    simp only [List.replicate_zero, Nat.zero_add] at this
    rw [this, normalizeSegments_ordinary _ _ _ h, replicate_reverse_ups]

theorem joinSlash_head (seg : List Char) (rest : List (List Char)) (h : seg ≠ []) :
    (joinSlash (seg :: rest)).head? = seg.head? := by
  cases seg with
  | nil => exact absurd rfl h
  | cons c tail =>
    cases rest with
    | nil => rfl
    | cons next rest2 => rfl

theorem joinSlash_getLast (segs : List (List Char)) (hne : segs ≠ [])
    (h : ∀ seg ∈ segs, seg ≠ [] ∧ '/' ∉ seg) :
    ∃ c, (joinSlash segs).getLast? = some c ∧ c ≠ '/' := by
  induction segs with
  | nil => exact absurd rfl hne
  | cons seg rest ih =>
    cases rest with
    | nil =>
      obtain ⟨hseg, hslash⟩ := h seg (List.mem_cons_self _ _)
      refine ⟨seg.getLast hseg, List.getLast?_eq_getLast _ hseg, ?_⟩
      intro e
      exact hslash (e ▸ List.getLast_mem hseg)
    | cons next rest2 =>
      obtain ⟨c, hc, hne2⟩ := ih (by simp) (fun s hs => h s (List.mem_cons_of_mem _ hs))
      refine ⟨c, ?_, hne2⟩
      rw [joinSlash_cons_cons, List.getLast?_append, List.getLast?_cons, hc]
      rfl

theorem mem_joinSlash (segs : List (List Char)) (c : Char) (h : c ∈ joinSlash segs) :
    c = '/' ∨ ∃ seg ∈ segs, c ∈ seg := by
  induction segs with
  | nil => simp [joinSlash] at h
  | cons seg rest ih =>
    cases rest with
    | nil => exact Or.inr ⟨seg, List.mem_cons_self _ _, h⟩
    | cons next rest2 =>
      rw [joinSlash_cons_cons, List.mem_append, List.mem_cons] at h
      rcases h with h | h | h
      · exact Or.inr ⟨seg, List.mem_cons_self _ _, h⟩
      · exact Or.inl h
      · rcases ih h with h2 | ⟨s, hs, hc⟩
        · exact Or.inl h2
        · exact Or.inr ⟨s, List.mem_cons_of_mem _ hs, hc⟩

theorem relSegs_spec (k : Nat) :
    ∀ seg ∈ (if k = 0 then [['.']] else List.replicate k ['.', '.']),
      seg ≠ [] ∧ '/' ∉ seg ∧ seg.head? = some '.' := by
  intro seg hseg
  by_cases hk : k = 0
  · simp only [hk, if_true, List.mem_singleton] at hseg
    subst hseg
    decide
  · simp only [hk, if_false] at hseg
    rw [List.eq_of_mem_replicate hseg]
    decide

theorem pathNormalize_relative (path : List Char) (segs out : List (List Char))
    (hsplit : splitSlash path = segs)
    (hnorm : normalizeSegments true [] segs = out)
    (hhead : path.head? = some '.')
    (hlast : ∃ c, path.getLast? = some c ∧ c ≠ '/')
    (hout : joinSlash out ≠ []) :
    pathNormalize path = joinSlash out := by
  obtain ⟨c, hc, hcne⟩ := hlast
  have hne : path ≠ [] := by
    intro e
    rw [e] at hhead
    exact absurd hhead (by simp)
  have habs : (path.head? == some '/') = false := by
    rw [hhead]
    decide
  have htrail : (path.getLast? == some '/') = false := by
    rw [hc]
    simpa using hcne
  simp only [pathNormalize, hne, habs, htrail, hsplit, Bool.not_false, hnorm, hout, if_false,
    Bool.false_eq_true]

theorem pathJoin_ordinary (k : Nat) (segs : List (List Char)) (hne : segs ≠ [])
    (h : ∀ seg ∈ segs, ordinarySegment seg = true) :
    pathJoin (relativeToSrc k) (joinSlash segs)
      = joinSlash (List.replicate k ['.', '.'] ++ segs) := by
  have hrelne : (if k = 0 then [['.']] else List.replicate k ['.', '.']) ≠ [] := by
    by_cases hk : k = 0
    · simp [hk]
    · simp only [hk, if_false]
      intro e
      have := congrArg List.length e
      simp at this
      exact hk this
  have hrel : relativeToSrc k
      = joinSlash (if k = 0 then [['.']] else List.replicate k ['.', '.']) := by
    by_cases hk : k = 0
    · simp only [relativeToSrc, hk, if_true]
      rfl
    · simp only [relativeToSrc, hk, if_false]
  have hsegs : ∀ seg ∈ segs, seg ≠ [] ∧ '/' ∉ seg := by
    intro seg hs
    obtain ⟨h1, -, -, h4⟩ := ordinarySegment_spec seg (h seg hs)
    exact ⟨h1, fun hm => (ordinaryChar_spec _ (h4 _ hm)).1 rfl⟩
  have hall : ∀ seg ∈ (if k = 0 then [['.']] else List.replicate k ['.', '.']) ++ segs,
      seg ≠ [] ∧ '/' ∉ seg := by
    intro seg hs
    rcases List.mem_append.mp hs with hs | hs
    · exact ⟨(relSegs_spec k seg hs).1, (relSegs_spec k seg hs).2.1⟩
    · exact hsegs seg hs
  have hallne : (if k = 0 then [['.']] else List.replicate k ['.', '.']) ++ segs ≠ [] := by
    simp [hne]
  have hpath : relativeToSrc k ++ '/' :: joinSlash segs
      = joinSlash ((if k = 0 then [['.']] else List.replicate k ['.', '.']) ++ segs) := by
    rw [hrel, joinSlash_append _ _ hrelne hne]
  obtain ⟨first, others, hfirst⟩ := List.exists_cons_of_ne_nil hrelne
  obtain ⟨sfirst, sothers, hsfirst⟩ := List.exists_cons_of_ne_nil hne
  have hfirstspec := relSegs_spec k first (by rw [hfirst]; exact List.mem_cons_self _ _)
  have ha : relativeToSrc k ≠ [] := by
    intro e
    have hh := joinSlash_head first others hfirstspec.1
    rw [← hfirst, ← hrel, e, hfirstspec.2.2] at hh
    exact absurd hh (by simp)
  have hb : joinSlash segs ≠ [] := by
    intro e
    have hs1 := (hsegs sfirst (by rw [hsfirst]; exact List.mem_cons_self _ _)).1
    have hh := joinSlash_head sfirst sothers hs1
    rw [← hsfirst, e] at hh
    cases sfirst with
    | nil => exact hs1 rfl
    | cons c t => simp at hh
  have hhead : (joinSlash ((if k = 0 then [['.']] else List.replicate k ['.', '.']) ++ segs)).head?
      = some '.' := by
    rw [hfirst, List.cons_append, joinSlash_head _ _ hfirstspec.1, hfirstspec.2.2]
  have hout : joinSlash (List.replicate k ['.', '.'] ++ segs) ≠ [] := by
    intro e
    have hmem : ∀ c ∈ joinSlash segs, c ∈ joinSlash (List.replicate k ['.', '.'] ++ segs) := by
      intro c hc
      by_cases hk : k = 0
      · simpa [hk] using hc
      · rw [joinSlash_append _ _ (by
          intro e2
          have := congrArg List.length e2
          simp at this
          exact hk this) hne]
        simp [hc]
    cases hj : joinSlash segs with
    | nil => exact hb hj
    | cons c t =>
      have := hmem c (by rw [hj]; exact List.mem_cons_self _ _)
      rw [e] at this
      simp at this
  simp only [pathJoin, ha, hb, if_false, hpath]
  exact pathNormalize_relative _ _ _
    (splitSlash_joinSlash _ hallne (fun s hs => (hall s hs).2))
    (normalizeSegments_relative k segs h) hhead
    (joinSlash_getLast _ hallne hall) hout

theorem joinSlash_ups (k : Nat) (segs : List (List Char)) (hne : segs ≠ []) :
    joinSlash (List.replicate k ['.', '.'] ++ segs)
      = (List.replicate k ['.', '.', '/']).flatten ++ joinSlash segs := by
  induction k with
  | zero => rfl
  | succ k ih =>
    have hrest : List.replicate k ['.', '.'] ++ segs ≠ [] := by simp [hne]
    have hsplit : List.replicate (k + 1) ['.', '.'] ++ segs
        = [['.', '.']] ++ (List.replicate k ['.', '.'] ++ segs) := by
      rw [List.replicate_succ]
      rfl
    rw [hsplit, joinSlash_append _ _ (by simp) hrest, ih, List.replicate_succ]
    simp [joinSlash]

theorem map_backslash_id (l : List Char) (h : barraInvertida ∉ l) :
    l.map (fun c => if c = barraInvertida then '/' else c) = l := by
  induction l with
  | nil => rfl
  | cons c rest ih =>
    have hc : c ≠ barraInvertida := fun e => h (by simp [e])
    have hr := ih (fun e => h (List.mem_cons_of_mem _ e))
    simp [hc, hr]

theorem rewriteSpecifier_ordinary (k : Nat) (q : Char) (segs : List (List Char))
    (hq : isQuote q = true) (hne : segs ≠ [])
    (h : ∀ seg ∈ segs, ordinarySegment seg = true)
    (hdot : k = 0 → (joinSlash segs).head? ≠ some '.') :
    rewriteSpecifier k q (joinSlash segs) = q :: aliasTarget k (joinSlash segs) ++ [q] := by
  have hjoin := pathJoin_ordinary k segs hne h
  have hnoback : barraInvertida ∉ joinSlash (List.replicate k ['.', '.'] ++ segs) := by
    intro hm
    rcases mem_joinSlash _ _ hm with e | ⟨seg, hs, hc⟩
    · exact absurd e (by decide)
    · rcases List.mem_append.mp hs with hs | hs
      · rw [List.eq_of_mem_replicate hs] at hc
        exact absurd hc (by decide)
      · obtain ⟨-, -, -, h4⟩ := ordinarySegment_spec seg (h seg hs)
        exact (ordinaryChar_spec _ (h4 _ hc)).2.1 rfl
  have hwrap : (if q = aspaSimples then aspaSimples else aspaDupla) = q := by
    by_cases e : q = aspaSimples
    · simp only [e, if_true]
    · simp only [isQuote, Bool.or_eq_true, beq_iff_eq] at hq
      rcases hq with hq | hq
      · exact absurd hq e
      · subst hq
        rfl
  simp only [rewriteSpecifier, hjoin, map_backslash_id _ hnoback, hwrap]
  by_cases hk : k = 0
  · subst hk
    have hd := hdot rfl
    simp only [List.replicate_zero, List.nil_append, hd, if_false, aliasTarget, if_true]
  · obtain ⟨j, rfl⟩ := Nat.exists_eq_succ_of_ne_zero hk
    have hhead : ((List.replicate (j + 1) ['.', '.', '/']).flatten ++ joinSlash segs).head?
        = some '.' := by
      rw [List.replicate_succ]
      rfl
    rw [joinSlash_ups _ _ hne]
    simp only [hhead, if_true, aliasTarget, hk, if_false]

theorem includesAlias_append (pre tail : List Char) :
    includesAlias (pre ++ '@' :: '/' :: tail) = true := by
  induction pre with
  | nil => simp [includesAlias]
  | cons c rest ih =>
    cases rest with
    | nil => simp [includesAlias]
    | cons d rest2 =>
      simp only [List.cons_append] at ih ⊢
      simp only [includesAlias, ih, Bool.or_true]

theorem replaceAliases_ordinary (k : Nat) (pre post : List Char) (q : Char)
    (segs : List (List Char))
    (hpre : aliasFree pre = true) (hq : isQuote q = true) (hne : segs ≠ [])
    (h : ∀ seg ∈ segs, ordinarySegment seg = true)
    (hdot : k = 0 → (joinSlash segs).head? ≠ some '.') :
    replaceAliases k ((pre ++ q :: '@' :: '/' :: (joinSlash segs ++ q :: post)).length + 1)
        (pre ++ q :: '@' :: '/' :: (joinSlash segs ++ q :: post))
      = pre ++ (q :: aliasTarget k (joinSlash segs) ++ [q])
          ++ replaceAliases k (post.length + 1) post := by
  rw [replaceAliases_aliasFree_append k pre _ hpre (Or.inr ⟨q, _, rfl, hq⟩)]
  have hchars : ∀ c ∈ joinSlash segs, isQuote c = false ∧ isLineTerminator c = false := by
    intro c hc
    rcases mem_joinSlash _ _ hc with e | ⟨seg, hs, hcs⟩
    · subst e
      decide
    · obtain ⟨-, -, -, h4⟩ := ordinarySegment_spec seg (h seg hs)
      exact (ordinaryChar_spec _ (h4 _ hcs)).2.2
  have htake := takeSpecifier_ordinary (joinSlash segs) post q hchars hq
  have hcond : (isQuote q && ['@', '/'].isPrefixOf ('@' :: '/' :: (joinSlash segs ++ q :: post)))
      = true := by
    simp [hq, List.isPrefixOf]
  have hstep : replaceAliases k ((q :: '@' :: '/' :: (joinSlash segs ++ q :: post)).length + 1)
      (q :: '@' :: '/' :: (joinSlash segs ++ q :: post))
      = rewriteSpecifier k q (joinSlash segs)
        ++ replaceAliases k ((q :: '@' :: '/' :: (joinSlash segs ++ q :: post)).length) post := by
    rw [replaceAliases_cons, hcond]
    simp only [List.drop_succ_cons, List.drop_zero, htake, if_true]
  rw [hstep, rewriteSpecifier_ordinary k q segs hq hne h hdot,
    replaceAliases_fuel k _ (post.length + 1) post (by simp; omega) (by omega)]
  simp

/-- For a file `k` levels below `src` whose content is an alias-free text, a
specifier `@/p` between two equal quotes and another alias-free text, where `p`
consists of ordinary segments and, when `k = 0`, does not begin with a dot:
`fixFile` replaces `@/p` by `k` repetitions of "../" followed by `p` (by "./"
and `p` when `k = 0`) between the same quotes and leaves the rest unchanged. -/
theorem fixFile_ordinary (k : Nat) (pre post : List Char) (q : Char)
    (segs : List (List Char))
    (hpre : aliasFree pre = true) (hpost : aliasFree post = true)
    (hq : isQuote q = true) (hne : segs ≠ [])
    (h : ∀ seg ∈ segs, ordinarySegment seg = true)
    (hdot : k = 0 → (joinSlash segs).head? ≠ some '.') :
    fixFile k (String.mk (pre ++ q :: '@' :: '/' :: (joinSlash segs ++ q :: post)))
      = String.mk (pre ++ q :: (aliasTarget k (joinSlash segs) ++ q :: post)) := by
  have hinc : includesAlias (pre ++ q :: '@' :: '/' :: (joinSlash segs ++ q :: post)) = true := by
    have := includesAlias_append (pre ++ [q]) (joinSlash segs ++ q :: post)
    simpa using this
  simp only [fixFile, hinc, Bool.not_true, Bool.false_eq_true, if_false,
    replaceAliases_ordinary k pre post q segs hpre hq hne h hdot,
    replaceAliases_aliasFree k post hpost]
  simp

/-- C30 (evaluation of the code): at two levels below `src` the specifier
`@/lib/utils` becomes `../../lib/utils`, and directly in `src` it becomes
`./lib/utils`; but directly in `src` the specifier `@/.config/x`, whose first
segment begins with a dot, becomes `.config/x` and not `./.config/x`. -/
theorem fixFile_dot_segment :
    fixFile 2 ("import cn from " ++ String.mk [aspaSimples] ++ "@/lib/utils"
        ++ String.mk [aspaSimples] ++ ";")
      = "import cn from " ++ String.mk [aspaSimples] ++ "../../lib/utils"
        ++ String.mk [aspaSimples] ++ ";" ∧
    fixFile 0 ("import cn from " ++ String.mk [aspaDupla] ++ "@/lib/utils"
        ++ String.mk [aspaDupla] ++ ";")
      = "import cn from " ++ String.mk [aspaDupla] ++ "./lib/utils"
        ++ String.mk [aspaDupla] ++ ";" ∧
    fixFile 0 ("import cfg from " ++ String.mk [aspaSimples] ++ "@/.config/x"
        ++ String.mk [aspaSimples] ++ ";")
      = "import cfg from " ++ String.mk [aspaSimples] ++ ".config/x"
        ++ String.mk [aspaSimples] ++ ";" ∧
    fixFile 0 ("import cfg from " ++ String.mk [aspaSimples] ++ "@/.config/x"
        ++ String.mk [aspaSimples] ++ ";")
      ≠ "import cfg from " ++ String.mk [aspaSimples] ++ "./.config/x"
        ++ String.mk [aspaSimples] ++ ";" := by
  refine ⟨by decide, by decide, by decide, by decide⟩

end AluguelMain
